import Mathlib

/-!
Verification development for the openhvx-agent repository.

Shallow embedding conventions:
* A filesystem path is represented by the list of its segments; the list
  stands for the rooted absolute path obtained by joining the segments with
  the separator.  The Go string form of a path is never needed by the
  properties below, only its segment structure.  The empty list stands for
  the empty path given to EnsureDataDirs (the managed roots themselves are
  always non-empty).
* filepath.Clean on an absolute path removes empty and dot segments and
  resolves dot-dot segments against the root; cleanPath implements exactly
  that on segment lists.
* The filesystem is a state: a set of existing directories and a map from
  file paths to their byte contents (bytes are modeled as a String).
  Every mutating operation of the Go os package used by datadirs.go is a
  function from a state to a state paired with an outcome.
* time.Now based names are oracles passed as extra String arguments.
-/

abbrev FPath := List String

/-- A segment that filepath.Clean keeps unchanged. -/
def plainSeg (s : String) : Bool :=
  decide (s ≠ "" ∧ s ≠ "." ∧ s ≠ "..")

def plainSegs (p : FPath) : Bool := p.all plainSeg

/-- Embedding of filepath.Clean on a rooted path: drop empty and dot
segments, resolve dot-dot against the accumulated prefix (dot-dot at the
root is dropped, as filepath.Clean does for absolute paths). -/
def cleanPathAux (acc : FPath) : FPath → FPath
  | [] => acc
  | s :: rest =>
    if s = "" ∨ s = "." then cleanPathAux acc rest
    else if s = ".." then cleanPathAux acc.dropLast rest
    else cleanPathAux (acc ++ [s]) rest

def cleanPath (p : FPath) : FPath := cleanPathAux [] p

/-- Embedding of filepath.Join for a rooted first argument: concatenate and
clean, as Go does. -/
def joinP (a b : FPath) : FPath := cleanPath (a ++ b)

/-- Embedding of filepath.Rel for two rooted cleaned paths: strip the common
prefix and climb out of what remains of the base. -/
def relSegs : FPath → FPath → FPath
  | [], qs => qs
  | b :: bs, [] => List.replicate (b :: bs).length ".."
  | b :: bs, q :: qs =>
    if b = q then relSegs bs qs
    else List.replicate (b :: bs).length ".." ++ (q :: qs)

/-- datadirs.isUnder: p strictly below base.  Both sides are cleaned; the
relative form must not start with a dot-dot segment (the absolute-relative
escape of the Go code cannot arise in the rooted segment model). -/
def isUnder (p base : FPath) : Bool :=
  let pc := cleanPath p
  let basec := cleanPath base
  if pc = basec then false
  else
    let rel := relSegs basec pc
    if rel.head? = some ".." then false else true

structure DataDirs where
  Root : FPath
  VMS : FPath
  VHD : FPath
  Images : FPath
  ISOs : FPath
  Checkpoints : FPath
  Logs : FPath
  Trash : FPath
deriving Repr, DecidableEq

/-- The path layout computed by EnsureDataDirs before any filesystem call. -/
def mkDataDirs (basePath : FPath) : DataDirs :=
  let base := cleanPath basePath
  let root := joinP base ["openhvx"]
  { Root := root
    VMS := joinP root ["VMS"]
    VHD := joinP root ["VHD"]
    Images := joinP root ["Images"]
    ISOs := joinP root ["ISOs"]
    Checkpoints := joinP root ["Checkpoints"]
    Logs := joinP root ["Logs"]
    Trash := joinP root ["_trash"] }

def protectedList (d : DataDirs) : List FPath :=
  [d.Root, d.VMS, d.VHD, d.Images, d.ISOs, d.Checkpoints, d.Logs, d.Trash]

/-- datadirs.IsProtectedPath: the cleaned path is a member of the cleaned
protected set. -/
def IsProtectedPath (p : FPath) (d : DataDirs) : Bool :=
  decide (cleanPath p ∈ (protectedList d).map cleanPath)

/-- datadirs.AssertSafeTarget.  Returns the error, or none when the target is
admissible.  canonicalize is cleanPath here; its empty-input error case
cannot arise for the rooted segment paths handled below. -/
def AssertSafeTarget (target : FPath) (d : DataDirs) : Option String :=
  let canon := cleanPath target
  if isUnder canon d.Root = false then
    some "unsafe target: not under managed root"
  else if IsProtectedPath canon d then
    some "refuse to operate on protected dir"
  else none

/-! ## Filesystem state -/

structure FS where
  dirs : List FPath
  files : List (FPath × String)
deriving Repr, DecidableEq

def lookupFile (fs : FS) (p : FPath) : Option String :=
  fs.files.lookup p

def isFile (fs : FS) (p : FPath) : Bool :=
  (lookupFile fs p).isSome

/-- os.Lstat and os.Stat success: the path is a directory or a file. -/
def existsPath (fs : FS) (p : FPath) : Bool :=
  decide (p ∈ fs.dirs) || isFile fs p

def setFileEntry : List (FPath × String) → FPath → String → List (FPath × String)
  | [], p, c => [(p, c)]
  | (q, c') :: rest, p, c =>
    if q = p then (p, c) :: rest else (q, c') :: setFileEntry rest p c

def insertFile (fs : FS) (p : FPath) (c : String) : FS :=
  { fs with files := setFileEntry fs.files p c }

/-- os.Remove of a file path, error ignored by the callers below. -/
def removeFile (fs : FS) (p : FPath) : FS :=
  { fs with files := fs.files.filter (fun kv => kv.1 ≠ p) }

/-- The non-empty prefixes of a path: the ancestors os.MkdirAll walks. -/
def ancestors (p : FPath) : List FPath :=
  (List.range p.length).map (fun i => p.take (i + 1))

/-- os.MkdirAll: fails when a file occupies the path or one of its
ancestors, otherwise records every missing ancestor as a directory. -/
def mkdirAll (fs : FS) (p : FPath) : FS × Option String :=
  if (ancestors p).any (fun a => isFile fs a) then
    (fs, some "mkdir: not a directory")
  else
    ({ fs with
        dirs := (ancestors p).foldl (fun ds a => if a ∈ ds then ds else ds ++ [a]) fs.dirs },
      none)

/-- os.WriteFile: needs the parent directory, refuses a directory target,
creates or truncates the file. -/
def writeFile (fs : FS) (p : FPath) (c : String) : FS × Option String :=
  if decide (p.dropLast ∈ fs.dirs) = false then (fs, some "write: no such directory")
  else if decide (p ∈ fs.dirs) then (fs, some "write: is a directory")
  else (insertFile fs p c, none)

/-- os.CreateTemp in a parent directory; the fresh random name is an oracle
argument (Go retries until an unused name is found, so a taken oracle name
is reported as an error). -/
def createTemp (fs : FS) (parent : FPath) (name : String) : FS × Except String FPath :=
  if decide (parent ∈ fs.dirs) = false then (fs, .error "temp: no such directory")
  else if existsPath fs (parent ++ [name]) then (fs, .error "temp: name taken")
  else (insertFile fs (parent ++ [name]) "", .ok (parent ++ [name]))

def rebase (src dst p : FPath) : FPath :=
  if src.isPrefixOf p then dst ++ p.drop src.length else p

/-- os.Rename: source must exist, destination must be free (the agent runs
on Windows, where rename refuses an existing destination); a file moves its
entry, a directory moves its whole subtree. -/
def renamePath (fs : FS) (src dst : FPath) : FS × Option String :=
  if existsPath fs src = false then (fs, some "rename: source missing")
  else if existsPath fs dst then (fs, some "rename: destination exists")
  else if isFile fs src then
    ({ dirs := fs.dirs
       files := setFileEntry (fs.files.filter (fun kv => kv.1 ≠ src)) dst
         ((lookupFile fs src).getD "") },
      none)
  else
    ({ dirs := fs.dirs.map (rebase src dst)
       files := fs.files.map (fun kv => (rebase src dst kv.1, kv.2)) },
      none)

/-- os.OpenFile with O_CREATE and O_EXCL: refuses an existing path, creates
an empty file. -/
def openExclCreate (fs : FS) (p : FPath) : FS × Except String Unit :=
  if existsPath fs p then (fs, .error "open excl: file exists")
  else (insertFile fs p "", .ok ())

/-! ## datadirs.uniquePath -/

/-- filepath.Ext of a final path segment: the suffix starting at the last
dot, empty when there is no dot. -/
def extOf (s : String) : String :=
  if s.toList.contains '.' then
    String.mk ('.' :: (s.toList.reverse.takeWhile (fun c => c ≠ '.')).reverse)
  else ""

def lastSeg (p : FPath) : String := p.getLastD ""

/-- strings.TrimSuffix(base, ext) for the computed extension. -/
def baseNameOf (p : FPath) : String :=
  (lastSeg p).dropRight (extOf (lastSeg p)).length

/-- The probe candidate written by the loop of uniquePath: name (i).ext in
the same directory. -/
def seqCandidate (p : FPath) (i : Nat) : FPath :=
  p.dropLast ++ [baseNameOf p ++ " (" ++ toString i ++ ")" ++ extOf (lastSeg p)]

/-- The timestamp fallback candidate of uniquePath. -/
def tsCandidate (p : FPath) (ts : String) : FPath :=
  p.dropLast ++ [baseNameOf p ++ "-" ++ ts ++ extOf (lastSeg p)]

/-- The 1..9999 probe loop of uniquePath, fuel-counted. -/
def probeSeq (ex : FPath → Bool) (p : FPath) : Nat → Nat → Option FPath
  | _, 0 => none
  | i, fuel + 1 =>
    if ex (seqCandidate p i) = false then some (seqCandidate p i)
    else probeSeq ex p (i + 1) fuel

/-- datadirs.uniquePath.  ex is the Lstat observation (true when the
candidate exists or stats with an error other than not-exist); ts is the
time.Now derived fallback suffix. -/
def uniquePath (ex : FPath → Bool) (ts : String) (p : FPath) : Except String FPath :=
  if ex p = false then .ok p
  else
    match probeSeq ex p 1 9999 with
    | some c => .ok c
    | none =>
      if ex (tsCandidate p ts) = false then .ok (tsCandidate p ts)
      else .error "unable to find a free name"

/-! ## datadirs safe operations -/

/-- datadirs.SafeMkdirAll (the mode argument has no observable effect in the
model and is omitted). -/
def SafeMkdirAll (dir : FPath) (d : DataDirs) (fs : FS) : FS × Except String Unit :=
  let canon := cleanPath dir
  if isUnder canon d.Root = false then (fs, .error "mkdir outside managed root")
  else if IsProtectedPath canon d then (fs, .error "refuse to mkdir a protected dir")
  else
    match mkdirAll fs canon with
    | (fs1, some e) => (fs1, .error e)
    | (fs1, none) => (fs1, .ok ())

/-- datadirs.SafeCreateFile; the returned open handle is the created path. -/
def SafeCreateFile (dest : FPath) (ts : String) (d : DataDirs) (fs : FS) :
    FS × Except String FPath :=
  match AssertSafeTarget dest d with
  | some e => (fs, .error e)
  | none =>
    let destCanon := cleanPath dest
    match mkdirAll fs destCanon.dropLast with
    | (fs1, some e) => (fs1, .error ("prepare parent dir: " ++ e))
    | (fs1, none) =>
      match uniquePath (existsPath fs1) ts destCanon with
      | .error e => (fs1, .error e)
      | .ok finalPath =>
        match openExclCreate fs1 finalPath with
        | (fs2, .error e) => (fs2, .error e)
        | (fs2, .ok _) => (fs2, .ok finalPath)

/-- datadirs.SafeWriteFileAtomicUnique.  tmpName is the CreateTemp oracle;
the deferred close-and-remove of the temp file runs on every exit taken
after the temp file was created, exactly as the Go defer does. -/
def SafeWriteFileAtomicUnique (dest : FPath) (data : String) (tmpName ts : String)
    (d : DataDirs) (fs : FS) : FS × Except String FPath :=
  match AssertSafeTarget dest d with
  | some e => (fs, .error e)
  | none =>
    let destCanon := cleanPath dest
    let parent := destCanon.dropLast
    match mkdirAll fs parent with
    | (fs1, some e) => (fs1, .error ("prepare parent dir: " ++ e))
    | (fs1, none) =>
      match createTemp fs1 parent tmpName with
      | (fs1b, .error e) => (fs1b, .error ("create temp: " ++ e))
      | (fs2, .ok tmpPath) =>
        let fs3 := insertFile fs2 tmpPath data
        match uniquePath (existsPath fs3) ts destCanon with
        | .error e => (removeFile fs3 tmpPath, .error e)
        | .ok finalPath =>
          match renamePath fs3 tmpPath finalPath with
          | (fs4, some e) => (removeFile fs4 tmpPath, .error ("atomic rename failed: " ++ e))
          | (fs4, none) => (removeFile fs4 tmpPath, .ok finalPath)

/-- datadirs.SafeRenameNoOverwrite. -/
def SafeRenameNoOverwrite (src dst : FPath) (ts : String) (d : DataDirs) (fs : FS) :
    FS × Except String FPath :=
  match AssertSafeTarget src d with
  | some e => (fs, .error ("invalid src: " ++ e))
  | none =>
    match AssertSafeTarget dst d with
    | some e => (fs, .error ("invalid dst: " ++ e))
    | none =>
      let srcCanon := cleanPath src
      let dstCanon := cleanPath dst
      match mkdirAll fs dstCanon.dropLast with
      | (fs1, some e) => (fs1, .error ("prepare dst parent: " ++ e))
      | (fs1, none) =>
        match uniquePath (existsPath fs1) ts dstCanon with
        | .error e => (fs1, .error e)
        | .ok finalDst =>
          match renamePath fs1 srcCanon finalDst with
          | (fs2, some e) => (fs2, .error ("rename failed: " ++ e))
          | (fs2, none) => (fs2, .ok finalDst)

/-- datadirs.SafeCopyFileNoOverwrite.  Opening the source stands for
os.Open plus the io.Copy read side, which needs an existing regular file. -/
def SafeCopyFileNoOverwrite (src dst : FPath) (ts : String) (d : DataDirs) (fs : FS) :
    FS × Except String FPath :=
  match AssertSafeTarget src d with
  | some e => (fs, .error ("invalid src: " ++ e))
  | none =>
    match AssertSafeTarget dst d with
    | some e => (fs, .error ("invalid dst: " ++ e))
    | none =>
      let srcCanon := cleanPath src
      let dstCanon := cleanPath dst
      if isFile fs srcCanon = false then (fs, .error "open src: no such file")
      else
        match mkdirAll fs dstCanon.dropLast with
        | (fs1, some e) => (fs1, .error ("prepare dst parent: " ++ e))
        | (fs1, none) =>
          match uniquePath (existsPath fs1) ts dstCanon with
          | .error e => (fs1, .error e)
          | .ok finalDst =>
            match openExclCreate fs1 finalDst with
            | (fs2, .error e) => (fs2, .error e)
            | (fs2, .ok _) =>
              (insertFile fs2 finalDst ((lookupFile fs srcCanon).getD ""), .ok finalDst)

/-- datadirs.MoveToTrash.  tsTrash names the trash batch folder, tsUnique is
the uniquePath fallback oracle. -/
def MoveToTrash (target : FPath) (tsTrash tsUnique : String) (d : DataDirs) (fs : FS) :
    FS × Except String FPath :=
  match AssertSafeTarget target d with
  | some e => (fs, .error e)
  | none =>
    let src := cleanPath target
    let rel := relSegs (cleanPath d.Root) src
    let dst := joinP d.Trash ([tsTrash] ++ rel)
    match mkdirAll fs dst.dropLast with
    | (fs1, some e) => (fs1, .error ("prepare trash dir: " ++ e))
    | (fs1, none) =>
      match uniquePath (existsPath fs1) tsUnique dst with
      | .error e => (fs1, .error e)
      | .ok uniqueDst =>
        match renamePath fs1 src uniqueDst with
        | (fs2, some e) => (fs2, .error ("move to trash failed: " ++ e))
        | (fs2, none) => (fs2, .ok uniqueDst)

/-! ## EnsureDataDirs -/

def guardFileName : String := "DO-NOT-DELETE.txt"

def guardContent : String :=
  "Managed by OpenHVX. Do NOT delete this folder. Any destructive operation must move targets into the trash."

/-- The creation loop of EnsureDataDirs: MkdirAll over the managed set,
stopping at the first error. -/
def mkdirAllSeq (fs : FS) : List FPath → FS × Option String
  | [] => (fs, none)
  | p :: rest =>
    match mkdirAll fs p with
    | (fs1, some e) => (fs1, some e)
    | (fs1, none) => mkdirAllSeq fs1 rest

/-- datadirs.writeGuards: write the guard file into each managed directory
unless a stat sees it already; write errors are collected but the caller
drops them, so the model keeps only the state. -/
def writeGuardsSeq (fs : FS) : List FPath → FS
  | [] => fs
  | dir :: rest =>
    let fp := dir ++ [guardFileName]
    if existsPath fs fp then writeGuardsSeq fs rest
    else writeGuardsSeq (writeFile fs fp guardContent).1 rest

/-- datadirs.EnsureDataDirs. -/
def EnsureDataDirs (basePath : FPath) (fs : FS) : FS × Except String DataDirs :=
  if basePath.isEmpty then (fs, .error "basePath empty")
  else
    let d := mkDataDirs basePath
    match mkdirAllSeq fs (protectedList d) with
    | (fs1, some e) => (fs1, .error e)
    | (fs1, none) => (writeGuardsSeq fs1 (protectedList d), .ok d)

/-! ## JSON values and Go map payloads -/

/-- A dynamic JSON value, the image of Go interface-typed JSON data. -/
inductive JVal where
  | null
  | bool (b : Bool)
  | num (n : Int)
  | str (s : String)
  | arr (elems : List JVal)
  | obj (fields : List (String × JVal))

/-- Key lookup in a JSON object field list (first binding wins, as Go map
literals decoded from JSON carry unique keys). -/
def lookupKV : List (String × JVal) → String → Option JVal
  | [], _ => none
  | (k', v) :: rest, k => if k' = k then some v else lookupKV rest k

/-- Assignment m[k] = v on a Go map represented as an association list:
replace the binding when the key is present, append it otherwise. -/
def insertKV : List (String × JVal) → String → JVal → List (String × JVal)
  | [], k, v => [(k, v)]
  | (k', v') :: rest, k, v =>
    if k' = k then (k, v) :: rest else (k', v') :: insertKV rest k v

/-! ## amqp types (consumer.go, publisher.go) -/

def JobsEx : String := "jobs"
def TelemetryEx : String := "agent.telemetry"
def ResultsEx : String := "results"

structure AgentTask where
  taskId : String
  agentId : String
  action : String
  tenantId : String
  data : List (String × JVal)
  replyTo : String
  correlationId : String
  attempt : Int
  maxAttempts : Int

/-- The result envelope marshalled by consumeLoop (the opaque result field
keeps its dynamic JSON form). -/
structure ResultEnv where
  taskId : String
  agentId : String
  ok : Bool
  result : JVal
  error : String
  finishedAt : String

/-- One observable side effect of the per-delivery body of consumeLoop. -/
inductive Effect where
  | ack
  | nackDrop
  | runHandler (t : AgentTask)
  | publishResult (rk : String) (corr : String) (env : ResultEnv) (delivered : Bool)
  | declareQueue (q : String)
  | publishReply (q : String) (corr : String) (env : ResultEnv) (delivered : Bool)
  | afterHook (t : AgentTask)

/-- The error string consumeLoop publishes: the error field of an object
result when non-empty, else the handler error, else empty. -/
def resultErrMsg (result : JVal) (hErr : Option String) : String :=
  let fromResult :=
    match result with
    | .obj m =>
      match lookupKV m "error" with
      | some (.str s) => if s ≠ "" then s else ""
      | _ => ""
    | _ => ""
  if fromResult = "" then
    match hErr with
    | some e => e
    | none => ""
  else fromResult

/-- The body of the message loop of consumeLoop for a single delivery.
decoded is the outcome of json.Unmarshal on the delivery body; handle is the
task handler; pubRes and pubReply tell whether the two channel Publish calls
succeed (a failed publish is only logged); hookSet tells whether the
AfterResult hook is installed; now is the RFC3339 clock oracle. -/
def processDelivery (agentID : String) (decoded : Option AgentTask)
    (handle : AgentTask → JVal × Option String) (pubRes pubReply : Bool)
    (hookSet : Bool) (now : String) : List Effect :=
  match decoded with
  | none => [.nackDrop]
  | some t =>
    if t.agentId ≠ "" ∧ t.agentId ≠ agentID then [.ack]
    else
      let hres := handle t
      let result := hres.1
      let hErr := hres.2
      let ok := hErr.isNone
      let ackEff : Effect := if ok then .ack else .nackDrop
      let corr := if t.correlationId = "" then t.taskId else t.correlationId
      let env : ResultEnv :=
        { taskId := t.taskId
          agentId := agentID
          ok := ok
          result := result
          error := resultErrMsg result hErr
          finishedAt := now }
      let rk := "task." ++ t.taskId
      [.runHandler t, ackEff, .publishResult rk corr env pubRes]
        ++ (if t.replyTo ≠ "" then
              [.declareQueue t.replyTo, .publishReply t.replyTo corr env pubReply]
            else [])
        ++ (if hookSet then [.afterHook t] else [])

/-- The publish attempts of a trace against the results exchange: routing
key, envelope task id, and whether the channel accepted the frame. -/
def resultPublishAttempts (tr : List Effect) : List (String × String × Bool) :=
  tr.filterMap fun e =>
    match e with
    | .publishResult rk _ env delivered => some (rk, env.taskId, delivered)
    | _ => none

/-- The result envelopes actually handed to the broker (failed channel
publishes are only logged by consumeLoop). -/
def resultEnvelopesPublished (tr : List Effect) : List (String × String) :=
  tr.filterMap fun e =>
    match e with
    | .publishResult rk _ env delivered =>
      if delivered then some (rk, env.taskId) else none
    | _ => none

/-! ## publisher.go retry machinery -/

/-- The error shapes distinguished by isConnErr: the closed-session sentinel,
a protocol-level amqp.Error, or any other error. -/
inductive GoErr where
  | errClosed
  | amqpError (msg : String)
  | other (msg : String)
deriving Repr, DecidableEq

/-- amqp.isConnErr. -/
def isConnErr : Option GoErr → Bool
  | none => false
  | some .errClosed => true
  | some (.amqpError _) => true
  | some (.other _) => false

/-- What one iteration of publishWithRetry observes: ensureChannel fails, or
the publish closure succeeds, or it fails with some error. -/
inductive StepOutcome where
  | ensureErr (e : GoErr)
  | pubOk
  | pubErr (e : GoErr)

/-- Observable actions of publishWithRetry, in order. -/
inductive PwrAction where
  | ensureFailed
  | ensured
  | pubAttempted
  | reset
  | sleep2s
deriving Repr, DecidableEq

/-- The attempt loop of publishWithRetry: one StepOutcome per remaining
iteration, the running lastErr, the emitted actions and the final error
(none is a successful publish). -/
def pwrLoop : List StepOutcome → Option GoErr → List PwrAction × Option GoErr
  | [], lastErr => ([], lastErr)
  | o :: rest, _ =>
    match o with
    | .ensureErr e =>
      let r := pwrLoop rest (some e)
      (.ensureFailed :: .sleep2s :: r.1, r.2)
    | .pubOk => ([.ensured, .pubAttempted], none)
    | .pubErr e =>
      if isConnErr (some e) then
        let r := pwrLoop rest (some e)
        (.ensured :: .pubAttempted :: .reset :: .sleep2s :: r.1, r.2)
      else ([.ensured, .pubAttempted], some e)

/-- amqp.publishWithRetry: three iterations, starting with no last error. -/
def publishWithRetry (o0 o1 o2 : StepOutcome) : List PwrAction × Option GoErr :=
  pwrLoop [o0, o1, o2] none

/-! ## powershell/exec.go -/

/-- Raw outcome of one pwsh process run: captured stdout, captured stderr,
and whether cmd.Run returned an error (non-zero exit or spawn failure). -/
structure ExecResult where
  stdout : String
  stderr : String
  exitErr : Bool

/-- powershell.runPwsh: returns stdout, stderr and the run error; a clean
exit with empty stdout becomes the empty-action-output error with no
captured streams. -/
def runPwsh (r : ExecResult) : String × String × Option String :=
  if r.exitErr then (r.stdout, r.stderr, some "exit error")
  else if r.stdout = "" then ("", "", some "empty action output")
  else (r.stdout, r.stderr, none)

/-- ASCII lowering of strings.ToLower, on the character list. -/
def lowerStr (s : String) : String :=
  String.mk (s.toList.map Char.toLower)

/-- The whitespace set of strings.TrimSpace. -/
def wsChar (c : Char) : Bool :=
  c == ' ' || c == '\t' || c == '\n' || c == '\r'

/-- strings.TrimSpace. -/
def trimSpace (s : String) : String :=
  String.mk (((s.toList.dropWhile wsChar).reverse.dropWhile wsChar).reverse)

def containsSub (pat : List Char) : List Char → Bool
  | [] => pat.isEmpty
  | c :: rest => pat.isPrefixOf (c :: rest) || containsSub pat rest

/-- powershell.isUnknownParamError: case-insensitive containment of the
unknown-parameter message and of the parameter name. -/
def isUnknownParamError (stderr param : String) : Bool :=
  let s := lowerStr stderr
  containsSub "parameter cannot be found".toList s.toList
    && containsSub (lowerStr param).toList s.toList

/-- One pwsh invocation as RunActionScript shapes it: the resolved script,
the optional -InputJson inline argument (carrying the serialized data), and
the stdin envelope. -/
structure PsInvocation where
  script : String
  inputJsonArg : Option JVal
  stdinPayload : JVal

/-- The stdin wrapper written by RunActionScript. -/
def stdinEnvelope (action : String) (data : List (String × JVal)) : JVal :=
  .obj [("action", .str action), ("data", .obj data)]

/-- powershell.RunActionScript (the dual-channel variant the spec adopts):
first run with the -InputJson inline argument and the stdin wrapper; when
that run fails and stderr matches the unknown-parameter pattern for
InputJson, retry exactly once without the inline argument.  psPath and
scriptPath are the findPwsh and resolveActionScript outcomes; r1 and r2 are
the process outcomes of the two possible runs.  Returns the invocation
trace, the stdout handed to the caller, and the error. -/
def RunActionScript (action : String) (data : List (String × JVal))
    (psPath : Except String String) (scriptPath : Except String String)
    (r1 r2 : ExecResult) : List PsInvocation × String × Option String :=
  match psPath with
  | .error e => ([], "", some e)
  | .ok _ =>
    match scriptPath with
    | .error e => ([], "", some e)
    | .ok sp =>
      let inv1 : PsInvocation :=
        { script := sp
          inputJsonArg := some (.obj data)
          stdinPayload := stdinEnvelope action data }
      let res1 := runPwsh r1
      match res1.2.2 with
      | none => ([inv1], res1.1, none)
      | some _ =>
        if isUnknownParamError res1.2.1 "InputJson" then
          let inv2 : PsInvocation :=
            { script := sp
              inputJsonArg := none
              stdinPayload := stdinEnvelope action data }
          let res2 := runPwsh r2
          match res2.2.2 with
          | none => ([inv1, inv2], res2.1, none)
          | some _ =>
            if res2.1 ≠ "" then ([inv1, inv2], res2.1, some "action script failed")
            else ([inv1, inv2], "",
              some ("action script failed: " ++ trimSpace res2.2.1))
        else
          if res1.1 ≠ "" then ([inv1], res1.1, some "action script failed")
          else ([inv1], "", some ("action script failed: " ++ trimSpace res1.2.1))

/-! ## tasks: runtime context and HandleTask payload (context.go, handler.go) -/

/-- The process-wide runtime context (the variant carrying the read-only
Images datastore, which the spec adopts as authoritative). -/
structure RuntimeCtx where
  agentId : String
  basePath : String
  paths : List (String × String)
  datastores : List (List (String × JVal))

/-- tasks.ctxMap: the standard context object embedded under the reserved
payload key. -/
def ctxMap (rt : RuntimeCtx) (tenantId : String) : JVal :=
  .obj
    [ ("agentId", .str rt.agentId)
      , ("tenantId", .str tenantId)
      , ("basePath", .str rt.basePath)
      , ("paths", .obj (rt.paths.map (fun kv => (kv.1, .str kv.2))))
      , ("datastores", .arr (rt.datastores.map (fun fields => .obj fields))) ]

/-- The payload merge of tasks.HandleTask: copy every task.data binding into
a fresh map, then assign the runtime context under the reserved key. -/
def handleTaskPayload (rt : RuntimeCtx) (t : AgentTask) : List (String × JVal) :=
  let merged := t.data.foldl (fun m kv => insertKV m kv.1 kv.2) []
  insertKV merged "__ctx" (ctxMap rt t.tenantId)

/-! ## tasks/telemetry_light.go -/

/-- Raw stdout of an action script: either bytes that parse as JSON or an
arbitrary non-JSON text. -/
inductive RawOut where
  | json (v : JVal)
  | text (s : String)

/-- json.Unmarshal of the stdout into the anonymous struct of
KickLightRefresh: top-level null fills zero values; a top-level object reads
the ok flag (absent means false, JSON null is ignored, any other non-boolean
is a type error), type-checks the error field against its string type (absent
or JSON null are fine, any other non-string value is a type error), and keeps
the raw result field when present (a RawMessage accepts any value); every
other top-level shape is a decode error. -/
def decodeLightEnvelope : JVal → Option (Bool × Option JVal)
  | .null => some (false, none)
  | .obj fields =>
    (match lookupKV fields "ok" with
      | none => some false
      | some (.bool b) => some b
      | some .null => some false
      | some _ => none).bind
      (fun okFlag =>
        match lookupKV fields "error" with
        | none => some (okFlag, lookupKV fields "result")
        | some (.str _) => some (okFlag, lookupKV fields "result")
        | some .null => some (okFlag, lookupKV fields "result")
        | some _ => none)
  | _ => none

/-- A light-refresh side effect: the script invocation, or one publication
through PublishInventoryJSONWithMeta with its routing key, source, merge
mode, headers and body. -/
inductive LightEffect where
  | invokeScript (action : String)
  | publishMeta (rk : String) (source : String) (mergeMode : String)
      (headers : List (String × String)) (body : RawOut)

/-- The header table built by PublishInventoryJSONWithMeta: x-source and
x-merge-mode, then the caller-provided entries. -/
def metaHeaders (source mergeMode : String) (extra : List (String × String)) : List (String × String) :=
  [("x-source", source), ("x-merge-mode", mergeMode)] ++ extra

/-- tasks.KickLightRefresh for one completed task: invoke the light-refresh
action; on a script error only log and stop; on a success envelope with a
present result publish it as patch-nondestructive; otherwise publish the raw
stdout as raw.  script is the RunActionScript outcome (error when the
invocation returned a non-nil error). -/
def KickLightRefresh (agentId : String) (script : Except String RawOut) : List LightEffect :=
  [.invokeScript "inventory.refresh.light"]
    ++ match script with
       | .error _ => []
       | .ok raw =>
         let decoded :=
           match raw with
           | .json v => decodeLightEnvelope v
           | .text _ => none
         match decoded with
         | some (true, some res) =>
           [.publishMeta ("inventory." ++ agentId) "inventory.refresh.light"
             "patch-nondestructive"
             (metaHeaders "inventory.refresh.light" "patch-nondestructive"
               [("x-agent-id", agentId)])
             (.json res)]
         | _ =>
           [.publishMeta ("inventory." ++ agentId) "inventory.refresh.light" "raw"
             (metaHeaders "inventory.refresh.light" "raw" [("x-agent-id", agentId)])
             raw]

/-- The publications of a light-refresh trace. -/
def lightPublishes (tr : List LightEffect) : List LightEffect :=
  tr.filter fun e =>
    match e with
    | .publishMeta _ _ _ _ _ => true
    | _ => false

/-- How many publish attempts a publishWithRetry trace contains. -/
def pubAttemptCount (tr : List PwrAction) : Nat :=
  (tr.filter (fun a => a = PwrAction.pubAttempted)).length

/-- The successful light-refresh envelope: the present result of a decoded
success envelope, none in every other case. -/
def lightSuccess (raw : RawOut) : Option JVal :=
  match raw with
  | .json v =>
    match decodeLightEnvelope v with
    | some (true, some res) => some res
    | _ => none
  | .text _ => none

/-! ## Association list lemmas -/

theorem lookupKV_insertKV_self (m : List (String × JVal)) (k : String) (v : JVal) :
    lookupKV (insertKV m k v) k = some v := by
  induction m with
  | nil => simp [insertKV, lookupKV]
  | cons kv rest ih =>
    by_cases h : kv.1 = k
    · simp [insertKV, h, lookupKV]
    · simp [insertKV, h, lookupKV, ih]

theorem lookupKV_insertKV_ne (m : List (String × JVal)) (k k' : String) (v : JVal)
    (h : k' ≠ k) : lookupKV (insertKV m k v) k' = lookupKV m k' := by
  have h' : ¬ k = k' := fun he => h he.symm
  induction m with
  | nil => simp [insertKV, lookupKV, h']
  | cons kv rest ih =>
    by_cases hk : kv.1 = k
    · subst hk
      simp [insertKV, lookupKV, h']
    · simp [insertKV, hk, lookupKV, ih]

theorem lookupKV_eq_none_of_not_mem (m : List (String × JVal)) (k : String)
    (h : k ∉ m.map Prod.fst) : lookupKV m k = none := by
  induction m with
  | nil => rfl
  | cons kv rest ih =>
    simp only [List.map_cons, List.mem_cons] at h
    push_neg at h
    have h1 : ¬ kv.1 = k := fun he => h.1 he.symm
    simp [lookupKV, h1, ih h.2]

theorem lookupKV_foldl_insert (data : List (String × JVal)) :
    ∀ (acc : List (String × JVal)) (k : String), (data.map Prod.fst).Nodup →
      lookupKV (data.foldl (fun m kv => insertKV m kv.1 kv.2) acc) k =
        (match lookupKV data k with
          | some v => some v
          | none => lookupKV acc k) := by
  induction data with
  | nil => intro acc k _; simp [lookupKV]
  | cons kv rest ih =>
    intro acc k hnd
    simp only [List.map_cons, List.nodup_cons] at hnd
    simp only [List.foldl_cons]
    rw [ih _ k hnd.2]
    by_cases hk : kv.1 = k
    · subst hk
      rw [lookupKV_eq_none_of_not_mem rest kv.1 hnd.1]
      simp [lookupKV, lookupKV_insertKV_self]
    · simp [lookupKV, hk, lookupKV_insertKV_ne _ _ _ _ (fun he => hk he.symm)]

/-! ## Claim theorems -/

/-- C9: a delivered task whose agentId is non-empty and different from this
agent is acknowledged and nothing else happens: no handler run, no publish,
no reply, no post-task hook. -/
theorem c9_misrouted_task_ack_only (agentID : String) (t : AgentTask)
    (handle : AgentTask → JVal × Option String) (pubRes pubReply hookSet : Bool)
    (now : String) (h1 : t.agentId ≠ "") (h2 : t.agentId ≠ agentID) :
    processDelivery agentID (some t) handle pubRes pubReply hookSet now = [Effect.ack] := by
  simp [processDelivery, h1, h2]

/-- C9 witness: a concrete misrouted task is only acknowledged. -/
theorem c9_misrouted_task_ack_only_witness :
    processDelivery "HOST-A"
      (some { taskId := "T2", agentId := "HOST-B", action := "x", tenantId := ""
              data := [], replyTo := "", correlationId := "", attempt := 0, maxAttempts := 0 })
      (fun _ => (JVal.null, none)) true true true "2026-02-03T04:05:06Z" = [Effect.ack] :=
  c9_misrouted_task_ack_only "HOST-A" _ _ true true true _ (by decide) (by decide)

/-- C1 counterexample: the claim promises exactly one published result
envelope even when the channel publish fails, but consumeLoop only logs a
failed Publish, so a completed delivery whose publish fails ends with zero
envelopes on the results exchange. -/
theorem c1_counterexample :
    (resultEnvelopesPublished (processDelivery "HOST-A"
        (some { taskId := "T1", agentId := "HOST-A", action := "vm.power", tenantId := ""
                data := [], replyTo := "", correlationId := "", attempt := 0, maxAttempts := 0 })
        (fun _ => (JVal.obj [], none)) false true true "2026-02-03T04:05:06Z")).length ≠ 1 := by
  decide

/-- C1 amended: for a delivery that decodes and matches this agent, the
consume loop makes exactly one publish attempt on the results exchange, with
routing key task.taskId and an envelope carrying the taskId; the envelope is
actually published exactly when the channel accepts it, and a failed publish
is only logged, so zero envelopes can result. -/
theorem c1_single_result_publish_attempt (agentID now : String) (t : AgentTask)
    (handle : AgentTask → JVal × Option String) (pubRes pubReply hookSet : Bool)
    (hmatch : t.agentId = "" ∨ t.agentId = agentID) :
    resultPublishAttempts (processDelivery agentID (some t) handle pubRes pubReply hookSet now)
      = [("task." ++ t.taskId, t.taskId, pubRes)] ∧
    resultEnvelopesPublished (processDelivery agentID (some t) handle pubRes pubReply hookSet now)
      = (if pubRes then [("task." ++ t.taskId, t.taskId)] else []) := by
  have hcond : ¬ (t.agentId ≠ "" ∧ t.agentId ≠ agentID) := by
    rcases hmatch with h | h <;> simp [h]
  cases hh : (handle t).2 <;>
    cases pubRes <;>
      by_cases hr : t.replyTo = "" <;>
        cases hookSet <;>
          simp [processDelivery, hcond, hh, hr, resultPublishAttempts,
            resultEnvelopesPublished]

/-- C1 amended witness: a concrete matching task with a successful publish
yields exactly the one attempted and delivered envelope. -/
theorem c1_single_result_publish_attempt_witness :
    resultPublishAttempts (processDelivery "HOST-A"
        (some { taskId := "T1", agentId := "HOST-A", action := "vm.power", tenantId := ""
                data := [], replyTo := "", correlationId := "", attempt := 0, maxAttempts := 0 })
        (fun _ => (JVal.obj [], none)) true true true "2026-02-03T04:05:06Z")
      = [("task." ++ "T1", "T1", true)] ∧
    resultEnvelopesPublished (processDelivery "HOST-A"
        (some { taskId := "T1", agentId := "HOST-A", action := "vm.power", tenantId := ""
                data := [], replyTo := "", correlationId := "", attempt := 0, maxAttempts := 0 })
        (fun _ => (JVal.obj [], none)) true true true "2026-02-03T04:05:06Z")
      = (if true then [("task." ++ "T1", "T1")] else []) :=
  c1_single_result_publish_attempt "HOST-A" "2026-02-03T04:05:06Z" _ _ true true true
    (Or.inr rfl)

/-- C10: the payload HandleTask hands to the action invoker agrees with
task.data on every key other than the reserved context key, and its context
entry is always the runtime-context map for the task tenant, replacing any
context key the caller smuggled into task.data. -/
theorem c10_handle_task_payload_frame (rt : RuntimeCtx) (t : AgentTask)
    (hnd : (t.data.map Prod.fst).Nodup) :
    lookupKV (handleTaskPayload rt t) "__ctx" = some (ctxMap rt t.tenantId) ∧
    ∀ k, k ≠ "__ctx" → lookupKV (handleTaskPayload rt t) k = lookupKV t.data k := by
  have hdef : handleTaskPayload rt t =
      insertKV (t.data.foldl (fun m kv => insertKV m kv.1 kv.2) []) "__ctx"
        (ctxMap rt t.tenantId) := rfl
  constructor
  · rw [hdef, lookupKV_insertKV_self]
  · intro k hk
    rw [hdef, lookupKV_insertKV_ne _ _ _ _ hk, lookupKV_foldl_insert t.data [] k hnd]
    cases lookupKV t.data k <;> simp [lookupKV]

/-- C10 witness: a concrete payload with a business key and a smuggled
context key; the business key survives and the context key is replaced. -/
theorem c10_handle_task_payload_frame_witness :
    lookupKV
        (handleTaskPayload
          { agentId := "HOST-A", basePath := "C:", paths := [], datastores := [] }
          { taskId := "T1", agentId := "HOST-A", action := "vm.power", tenantId := "tn1"
            data := [("guid", JVal.str "G"), ("__ctx", JVal.null)], replyTo := ""
            correlationId := "", attempt := 0, maxAttempts := 0 }) "__ctx"
      = some (ctxMap { agentId := "HOST-A", basePath := "C:", paths := [], datastores := [] } "tn1") ∧
    ∀ k, k ≠ "__ctx" →
      lookupKV
        (handleTaskPayload
          { agentId := "HOST-A", basePath := "C:", paths := [], datastores := [] }
          { taskId := "T1", agentId := "HOST-A", action := "vm.power", tenantId := "tn1"
            data := [("guid", JVal.str "G"), ("__ctx", JVal.null)], replyTo := ""
            correlationId := "", attempt := 0, maxAttempts := 0 }) k
      = lookupKV [("guid", JVal.str "G"), ("__ctx", JVal.null)] k :=
  c10_handle_task_payload_frame _ _ (by decide)

theorem pwrLoop_pubAttempt_le (os : List StepOutcome) :
    ∀ lastErr, pubAttemptCount (pwrLoop os lastErr).1 ≤ os.length := by
  induction os with
  | nil => intro lastErr; simp [pwrLoop, pubAttemptCount]
  | cons o rest ih =>
    intro lastErr
    cases o with
    | ensureErr e =>
      simp only [pwrLoop]
      calc pubAttemptCount (PwrAction.ensureFailed :: PwrAction.sleep2s :: (pwrLoop rest (some e)).1)
          = pubAttemptCount (pwrLoop rest (some e)).1 := by
            simp [pubAttemptCount, List.filter]
        _ ≤ rest.length := ih _
        _ ≤ (StepOutcome.ensureErr e :: rest).length := by simp
    | pubOk => simp [pwrLoop, pubAttemptCount, List.filter]
    | pubErr e =>
      by_cases hc : isConnErr (some e) = true
      · simp only [pwrLoop, hc, if_true]
        have : pubAttemptCount
            (PwrAction.ensured :: PwrAction.pubAttempted :: PwrAction.reset ::
              PwrAction.sleep2s :: (pwrLoop rest (some e)).1)
            = pubAttemptCount (pwrLoop rest (some e)).1 + 1 := by
          simp [pubAttemptCount, List.filter]
        rw [this]
        have h2 := ih (some e)
        simp only [List.length_cons]
        omega
      · simp only [pwrLoop, hc, if_false, Bool.not_eq_true] at *
        simp [pwrLoop, hc, pubAttemptCount, List.filter]

/-- C3: on each publish the channel is first ensured; a publish failure with
a connection-class error resets the session, sleeps two seconds and retries
with the remaining budget; a non-connection error is returned verbatim with
no reset, no sleep and no further attempt; the loop makes at most three
attempts and an exhausted budget surfaces the last error, in particular the
third connection-class error when all three attempts fail that way. -/
theorem c3_publish_retry_policy :
    (∀ e rest lastErr, isConnErr (some e) = false →
        pwrLoop (StepOutcome.pubErr e :: rest) lastErr
          = ([PwrAction.ensured, PwrAction.pubAttempted], some e)) ∧
    (∀ e rest lastErr, isConnErr (some e) = true →
        pwrLoop (StepOutcome.pubErr e :: rest) lastErr
          = (PwrAction.ensured :: PwrAction.pubAttempted :: PwrAction.reset ::
              PwrAction.sleep2s :: (pwrLoop rest (some e)).1,
              (pwrLoop rest (some e)).2)) ∧
    (∀ lastErr, pwrLoop [] lastErr = ([], lastErr)) ∧
    (∀ o0 o1 o2, publishWithRetry o0 o1 o2 = pwrLoop [o0, o1, o2] none) ∧
    (∀ o0 o1 o2, pubAttemptCount (publishWithRetry o0 o1 o2).1 ≤ 3) ∧
    (∀ e0 e1 e2, isConnErr (some e0) = true → isConnErr (some e1) = true →
      isConnErr (some e2) = true →
        (publishWithRetry (StepOutcome.pubErr e0) (StepOutcome.pubErr e1)
          (StepOutcome.pubErr e2)).2 = some e2) := by
  refine ⟨?_, ?_, ?_, ?_, ?_, ?_⟩
  · intro e rest lastErr hc; simp [pwrLoop, hc]
  · intro e rest lastErr hc; simp [pwrLoop, hc]
  · intro lastErr; rfl
  · intro o0 o1 o2; rfl
  · intro o0 o1 o2; exact pwrLoop_pubAttempt_le _ _
  · intro e0 e1 e2 h0 h1 h2
    simp [publishWithRetry, pwrLoop, h0, h1, h2]

/-- C3 witness: a non-connection error is returned verbatim after one
attempt, and three connection-class failures surface the last error. -/
theorem c3_publish_retry_policy_witness :
    pwrLoop [StepOutcome.pubErr (GoErr.other "boom")] none
      = ([PwrAction.ensured, PwrAction.pubAttempted], some (GoErr.other "boom")) ∧
    (publishWithRetry (StepOutcome.pubErr GoErr.errClosed)
        (StepOutcome.pubErr GoErr.errClosed)
        (StepOutcome.pubErr (GoErr.amqpError "channel/connection is not open"))).2
      = some (GoErr.amqpError "channel/connection is not open") :=
  ⟨c3_publish_retry_policy.1 (GoErr.other "boom") [] none (by decide),
    c3_publish_retry_policy.2.2.2.2.2 GoErr.errClosed GoErr.errClosed
      (GoErr.amqpError "channel/connection is not open") (by decide) (by decide) (by decide)⟩

/-- C4: every action invocation presents the serialized payload through both
channels at once, as the inline -InputJson argument and as the stdin wrapper
of action and data; when the first run fails and its stderr matches the
unknown-parameter pattern for the inline argument name, the invocation is
retried exactly once without the inline argument (same stdin), and in every
other case there is no second run. -/
theorem c4_dual_channel_with_inline_fallback (action : String)
    (data : List (String × JVal)) (p sp : String) (r1 r2 : ExecResult) :
    ((RunActionScript action data (.ok p) (.ok sp) r1 r2).1.head? =
        some { script := sp, inputJsonArg := some (JVal.obj data)
               stdinPayload := stdinEnvelope action data }) ∧
    ((runPwsh r1).2.2 ≠ none → isUnknownParamError (runPwsh r1).2.1 "InputJson" = true →
      (RunActionScript action data (.ok p) (.ok sp) r1 r2).1 =
        [ { script := sp, inputJsonArg := some (JVal.obj data)
            stdinPayload := stdinEnvelope action data }
          , { script := sp, inputJsonArg := none
              stdinPayload := stdinEnvelope action data } ]) ∧
    ((runPwsh r1).2.2 = none ∨ isUnknownParamError (runPwsh r1).2.1 "InputJson" = false →
      (RunActionScript action data (.ok p) (.ok sp) r1 r2).1 =
        [ { script := sp, inputJsonArg := some (JVal.obj data)
            stdinPayload := stdinEnvelope action data } ]) := by
  refine ⟨?_, ?_, ?_⟩
  · cases h1 : (runPwsh r1).2.2 with
    | none => simp [RunActionScript, h1]
    | some e =>
      by_cases hpat : isUnknownParamError (runPwsh r1).2.1 "InputJson" = true
      · cases h2 : (runPwsh r2).2.2 with
        | none => simp [RunActionScript, h1, hpat, h2]
        | some e2 =>
          by_cases hout : (runPwsh r2).1 = "" <;>
            simp [RunActionScript, h1, hpat, h2, hout]
      · simp only [Bool.not_eq_true] at hpat
        by_cases hout : (runPwsh r1).1 = "" <;>
          simp [RunActionScript, h1, hpat, hout]
  · intro hfail hpat
    cases h1 : (runPwsh r1).2.2 with
    | none => exact absurd h1 hfail
    | some e =>
      cases h2 : (runPwsh r2).2.2 with
      | none => simp [RunActionScript, h1, hpat, h2]
      | some e2 =>
        by_cases hout : (runPwsh r2).1 = "" <;>
          simp [RunActionScript, h1, hpat, h2, hout]
  · intro hcase
    rcases hcase with h1 | hpat
    · simp [RunActionScript, h1]
    · cases h1 : (runPwsh r1).2.2 with
      | none => simp [RunActionScript, h1]
      | some e =>
        by_cases hout : (runPwsh r1).1 = "" <;>
          simp [RunActionScript, h1, hpat, hout]

/-- C4 witness: a first run whose stderr names the unknown InputJson
parameter is retried once without the inline argument, with every hypothesis
discharged at a concrete input. -/
theorem c4_dual_channel_with_inline_fallback_witness :
    (RunActionScript "vm.power" [("guid", JVal.str "G")] (.ok "pwsh")
        (.ok "actions/vm.power.ps1")
        { stdout := "", stderr := "A parameter cannot be found that matches parameter name 'InputJson'."
          exitErr := true }
        { stdout := "{}", stderr := "", exitErr := false }).1 =
      [ { script := "actions/vm.power.ps1"
          inputJsonArg := some (JVal.obj [("guid", JVal.str "G")])
          stdinPayload := stdinEnvelope "vm.power" [("guid", JVal.str "G")] }
        , { script := "actions/vm.power.ps1", inputJsonArg := none
            stdinPayload := stdinEnvelope "vm.power" [("guid", JVal.str "G")] } ] :=
  (c4_dual_channel_with_inline_fallback "vm.power" [("guid", JVal.str "G")]
      "pwsh" "actions/vm.power.ps1"
      { stdout := "", stderr := "A parameter cannot be found that matches parameter name 'InputJson'."
        exitErr := true }
      { stdout := "{}", stderr := "", exitErr := false }).2.1
    (by decide) (by decide)

/-- C6 counterexample: the claim promises that the light-refresh hook also
publishes (with the x-agent-id header) when the script invocation itself
returns an error, but KickLightRefresh only logs and returns in that case,
publishing nothing. -/
theorem c6_counterexample :
    lightPublishes (KickLightRefresh "HOST-A" (.error "action script failed")) = [] := by
  rfl

/-- C6 amended: the hook invokes inventory.refresh.light; when the script
invocation returns an error nothing is published; when stdout is a success
envelope with a present result the result is published with source
inventory.refresh.light and mergeMode patch-nondestructive; otherwise the
raw stdout is published with mergeMode raw; both published variants carry
the x-agent-id header. -/
theorem c6_light_refresh_publication (agentId : String) (script : Except String RawOut) :
    ((KickLightRefresh agentId script).head? = some (LightEffect.invokeScript "inventory.refresh.light")) ∧
    (∀ e, script = .error e → lightPublishes (KickLightRefresh agentId script) = []) ∧
    (∀ raw res, script = .ok raw → lightSuccess raw = some res →
      lightPublishes (KickLightRefresh agentId script) =
        [LightEffect.publishMeta ("inventory." ++ agentId) "inventory.refresh.light"
          "patch-nondestructive"
          (metaHeaders "inventory.refresh.light" "patch-nondestructive"
            [("x-agent-id", agentId)])
          (.json res)]) ∧
    (∀ raw, script = .ok raw → lightSuccess raw = none →
      lightPublishes (KickLightRefresh agentId script) =
        [LightEffect.publishMeta ("inventory." ++ agentId) "inventory.refresh.light" "raw"
          (metaHeaders "inventory.refresh.light" "raw" [("x-agent-id", agentId)])
          raw]) := by
  refine ⟨?_, ?_, ?_, ?_⟩
  · cases script <;> rfl
  · intro e he; subst he; rfl
  · intro raw res hs hsucc
    subst hs
    cases raw with
    | text s => simp [lightSuccess] at hsucc
    | json v =>
      simp only [lightSuccess] at hsucc
      rcases hd : decodeLightEnvelope v with _ | ⟨okFlag, resOpt⟩
      · rw [hd] at hsucc; simp at hsucc
      · rw [hd] at hsucc
        cases okFlag with
        | false => simp at hsucc
        | true =>
          cases resOpt with
          | none => simp at hsucc
          | some r =>
            simp only [Option.some.injEq] at hsucc
            subst hsucc
            simp [KickLightRefresh, lightPublishes, hd, List.filter]
  · intro raw hs hnone
    subst hs
    cases raw with
    | text s => simp [KickLightRefresh, lightPublishes, List.filter]
    | json v =>
      simp only [lightSuccess] at hnone
      rcases hd : decodeLightEnvelope v with _ | ⟨okFlag, resOpt⟩
      · simp [KickLightRefresh, lightPublishes, hd, List.filter]
      · rw [hd] at hnone
        cases okFlag with
        | false => simp [KickLightRefresh, lightPublishes, hd, List.filter]
        | true =>
          cases resOpt with
          | none => simp [KickLightRefresh, lightPublishes, hd, List.filter]
          | some r => simp at hnone

/-- C6 amended witness: a success envelope is published as
patch-nondestructive with the x-agent-id header. -/
theorem c6_light_refresh_publication_witness :
    lightPublishes (KickLightRefresh "HOST-A"
        (.ok (.json (JVal.obj [("ok", JVal.bool true), ("result", JVal.obj [("inventory", JVal.arr [])])])))) =
      [LightEffect.publishMeta ("inventory." ++ "HOST-A") "inventory.refresh.light"
        "patch-nondestructive"
        (metaHeaders "inventory.refresh.light" "patch-nondestructive"
          [("x-agent-id", "HOST-A")])
        (.json (JVal.obj [("inventory", JVal.arr [])]))] :=
  (c6_light_refresh_publication "HOST-A" _).2.2.1
    (.json (JVal.obj [("ok", JVal.bool true), ("result", JVal.obj [("inventory", JVal.arr [])])]))
    (JVal.obj [("inventory", JVal.arr [])]) rfl rfl

theorem probeSeq_finds (ex : FPath → Bool) (p : FPath) :
    ∀ (fuel start i : Nat), start ≤ i → i < start + fuel →
      ex (seqCandidate p i) = false →
      (∀ j, start ≤ j → j < i → ex (seqCandidate p j) = true) →
      probeSeq ex p start fuel = some (seqCandidate p i) := by
  intro fuel
  induction fuel with
  | zero => intro start i h1 h2 _ _; omega
  | succ f ih =>
    intro start i h1 h2 hfree htaken
    by_cases hs : start = i
    · subst hs
      simp [probeSeq, hfree]
    · have hlt : start < i := lt_of_le_of_ne h1 hs
      have hst : ex (seqCandidate p start) = true := htaken start le_rfl hlt
      simp only [probeSeq, hst]
      simp only [Bool.true_eq_false, if_false]
      exact ih (start + 1) i hlt (by omega) hfree
        (fun j hj1 hj2 => htaken j (by omega) hj2)

theorem probeSeq_exhausted (ex : FPath → Bool) (p : FPath) :
    ∀ (fuel start : Nat),
      (∀ j, start ≤ j → j < start + fuel → ex (seqCandidate p j) = true) →
      probeSeq ex p start fuel = none := by
  intro fuel
  induction fuel with
  | zero => intro start _; rfl
  | succ f ih =>
    intro start htaken
    have hst : ex (seqCandidate p start) = true := htaken start le_rfl (by omega)
    simp only [probeSeq, hst, Bool.true_eq_false, if_false]
    exact ih (start + 1) (fun j hj1 hj2 => htaken j (by omega) (by omega))

/-- C7: unique-name allocation returns the desired path when nothing exists
there; otherwise the first free numbered candidate in increasing order of
the counter 1..9999; when all numbered candidates are taken it falls back to
the timestamp candidate; and when that too is taken it fails. -/
theorem c7_unique_name_allocation (ex : FPath → Bool) (ts : String) (p : FPath) :
    (ex p = false → uniquePath ex ts p = .ok p) ∧
    (ex p = true → ∀ i, 1 ≤ i → i ≤ 9999 → ex (seqCandidate p i) = false →
      (∀ j, 1 ≤ j → j < i → ex (seqCandidate p j) = true) →
      uniquePath ex ts p = .ok (seqCandidate p i)) ∧
    (ex p = true → (∀ j, 1 ≤ j → j ≤ 9999 → ex (seqCandidate p j) = true) →
      ex (tsCandidate p ts) = false → uniquePath ex ts p = .ok (tsCandidate p ts)) ∧
    (ex p = true → (∀ j, 1 ≤ j → j ≤ 9999 → ex (seqCandidate p j) = true) →
      ex (tsCandidate p ts) = true → ∃ e, uniquePath ex ts p = .error e) := by
  refine ⟨?_, ?_, ?_, ?_⟩
  · intro hfree; simp [uniquePath, hfree]
  · intro hp i h1 h2 hfree htaken
    have hfound := probeSeq_finds ex p 9999 1 i h1 (by omega) hfree htaken
    simp [uniquePath, hp, hfound]
  · intro hp htaken hts
    have hnone := probeSeq_exhausted ex p 9999 1
      (fun j hj1 hj2 => htaken j hj1 (by omega))
    simp [uniquePath, hp, hnone, hts]
  · intro hp htaken hts
    have hnone := probeSeq_exhausted ex p 9999 1
      (fun j hj1 hj2 => htaken j hj1 (by omega))
    exact ⟨"unable to find a free name", by simp [uniquePath, hp, hnone, hts]⟩

/-- C7 witness: with a.txt and a (1).txt taken, allocation returns the
first free numbered candidate a (2).txt. -/
theorem c7_unique_name_allocation_witness :
    uniquePath (fun q => decide (q ∈ [["d", "a.txt"], ["d", "a (1).txt"]]))
        "20260203-040506.000" ["d", "a.txt"]
      = .ok (seqCandidate ["d", "a.txt"] 2) :=
  (c7_unique_name_allocation (fun q => decide (q ∈ [["d", "a.txt"], ["d", "a (1).txt"]]))
      "20260203-040506.000" ["d", "a.txt"]).2.1
    (by decide) 2 (by decide) (by decide) (by decide)
    (by
      intro j hj1 hj2
      have hj : j = 1 := by omega
      subst hj
      decide)

/-! ## Path lemmas -/

theorem plainSegs_append (a b : FPath) :
    plainSegs (a ++ b) = (plainSegs a && plainSegs b) := by
  simp [plainSegs, List.all_append]

theorem cleanPathAux_plain :
    ∀ (rest acc : FPath), plainSegs rest = true → cleanPathAux acc rest = acc ++ rest := by
  intro rest
  induction rest with
  | nil => intro acc _; simp [cleanPathAux]
  | cons s r ih =>
    intro acc h
    simp only [plainSegs, List.all_cons, Bool.and_eq_true] at h
    have hs := h.1
    simp only [plainSeg, decide_eq_true_eq] at hs
    obtain ⟨h1, h2, h3⟩ := hs
    have hr : plainSegs r = true := h.2
    simp [cleanPathAux, h1, h2, h3, ih _ hr]

theorem cleanPath_plain (p : FPath) (h : plainSegs p = true) : cleanPath p = p := by
  simpa [cleanPath] using cleanPathAux_plain p [] h

theorem joinP_plain (a b : FPath) (ha : plainSegs a = true) (hb : plainSegs b = true) :
    joinP a b = a ++ b := by
  rw [joinP, cleanPath_plain]
  rw [plainSegs_append, ha, hb]
  rfl

theorem relSegs_self_append : ∀ (l m : FPath), relSegs l (l ++ m) = m := by
  intro l
  induction l with
  | nil => intro m; rfl
  | cons b bs ih => intro m; simp [relSegs, ih]

theorem isUnder_self (p : FPath) : isUnder p p = false := by
  simp [isUnder]

theorem isUnder_append (r m : FPath) (hr : plainSegs r = true)
    (hm : plainSegs m = true) (hne : m ≠ []) : isUnder (r ++ m) r = true := by
  have h1 : cleanPath (r ++ m) = r ++ m := by
    apply cleanPath_plain
    rw [plainSegs_append, hr, hm]
    rfl
  have h2 : cleanPath r = r := cleanPath_plain r hr
  have hneq : r ++ m ≠ r := by
    intro hcontra
    apply hne
    have : r ++ m = r ++ [] := by rw [hcontra, List.append_nil]
    exact List.append_cancel_left this
  have hrel : relSegs r (r ++ m) = m := relSegs_self_append r m
  have hhead : m.head? ≠ some ".." := by
    cases m with
    | nil => exact absurd rfl hne
    | cons a l =>
      simp only [plainSegs, List.all_cons, Bool.and_eq_true] at hm
      have ha := hm.1
      simp only [plainSeg, decide_eq_true_eq] at ha
      simp [ha.2.2]
  simp [isUnder, h1, h2, hneq, hrel, hhead]

/-- The managed layout under a plain base: every protected directory is a
literal extension of the base. -/
theorem mkDataDirs_plain (base : FPath) (hb : plainSegs base = true) :
    mkDataDirs base =
      { Root := base ++ ["openhvx"]
        VMS := (base ++ ["openhvx"]) ++ ["VMS"]
        VHD := (base ++ ["openhvx"]) ++ ["VHD"]
        Images := (base ++ ["openhvx"]) ++ ["Images"]
        ISOs := (base ++ ["openhvx"]) ++ ["ISOs"]
        Checkpoints := (base ++ ["openhvx"]) ++ ["Checkpoints"]
        Logs := (base ++ ["openhvx"]) ++ ["Logs"]
        Trash := (base ++ ["openhvx"]) ++ ["_trash"] } := by
  have h0 : cleanPath base = base := cleanPath_plain base hb
  have hroot : joinP base ["openhvx"] = base ++ ["openhvx"] :=
    joinP_plain _ _ hb (by decide)
  have hR : plainSegs (base ++ ["openhvx"]) = true := by
    rw [plainSegs_append, hb]; rfl
  unfold mkDataDirs
  simp only [h0, hroot]
  rw [joinP_plain _ _ hR (by decide), joinP_plain _ _ hR (by decide),
    joinP_plain _ _ hR (by decide), joinP_plain _ _ hR (by decide),
    joinP_plain _ _ hR (by decide), joinP_plain _ _ hR (by decide),
    joinP_plain _ _ hR (by decide)]

theorem isProtected_of_mem (P : FPath) (d : DataDirs) (hplain : cleanPath P = P)
    (hP : P ∈ protectedList d) : IsProtectedPath P d = true := by
  simp only [IsProtectedPath, hplain, decide_eq_true_eq]
  exact List.mem_map.mpr ⟨P, hP, hplain⟩

/-- A protected path never passes the safety checks: it is the root itself
(not strictly under the root) or a protected member. -/
theorem protected_not_safe (base P : FPath) (hb : plainSegs base = true)
    (hP : P ∈ protectedList (mkDataDirs base)) :
    cleanPath P = P ∧
    (isUnder P (mkDataDirs base).Root = false ∨
      (isUnder P (mkDataDirs base).Root = true ∧ IsProtectedPath P (mkDataDirs base) = true)) := by
  have hmk := mkDataDirs_plain base hb
  have hR : plainSegs (base ++ ["openhvx"]) = true := by
    rw [plainSegs_append, hb]; rfl
  have hsub : ∀ x : String, plainSeg x = true →
      cleanPath ((base ++ ["openhvx"]) ++ [x]) = (base ++ ["openhvx"]) ++ [x] := by
    intro x hx
    apply cleanPath_plain
    rw [plainSegs_append, hR]
    simp [plainSegs, hx]
  have hiu : ∀ x : String, plainSeg x = true →
      isUnder ((base ++ ["openhvx"]) ++ [x]) (base ++ ["openhvx"]) = true := by
    intro x hx
    exact isUnder_append _ _ hR (by simp [plainSegs, hx]) (by simp)
  rw [hmk] at hP
  simp only [protectedList, List.mem_cons, List.not_mem_nil, or_false] at hP
  rcases hP with h | h | h | h | h | h | h | h <;> subst h
  · exact ⟨cleanPath_plain _ hR, Or.inl (by rw [hmk]; exact isUnder_self _)⟩
  all_goals
    refine ⟨hsub _ (by decide), Or.inr ⟨by rw [hmk]; exact hiu _ (by decide), ?_⟩⟩
  all_goals
    apply isProtected_of_mem _ _ (hsub _ (by decide))
  all_goals
    rw [hmk]
  all_goals
    simp [protectedList]

theorem assertSafeTarget_protected_err (base P : FPath) (hb : plainSegs base = true)
    (hP : P ∈ protectedList (mkDataDirs base)) :
    ∃ e, AssertSafeTarget P (mkDataDirs base) = some e := by
  obtain ⟨hcp, h | ⟨h1, h2⟩⟩ := protected_not_safe base P hb hP
  · exact ⟨"unsafe target: not under managed root", by simp [AssertSafeTarget, hcp, h]⟩
  · exact ⟨"refuse to operate on protected dir", by simp [AssertSafeTarget, hcp, h1, h2]⟩

/-- C2: every filesystem operation of the managed-datastore layer refuses a
protected path in any argument position (target, source or destination),
returning an error and leaving the filesystem state untouched. -/
theorem c2_protected_paths_refused (base P : FPath) (hb : plainSegs base = true)
    (hP : P ∈ protectedList (mkDataDirs base)) :
    (∀ fs, ∃ e, SafeMkdirAll P (mkDataDirs base) fs = (fs, .error e)) ∧
    (∀ fs ts, ∃ e, SafeCreateFile P ts (mkDataDirs base) fs = (fs, .error e)) ∧
    (∀ fs data tmp ts, ∃ e,
      SafeWriteFileAtomicUnique P data tmp ts (mkDataDirs base) fs = (fs, .error e)) ∧
    (∀ fs dst ts, ∃ e, SafeRenameNoOverwrite P dst ts (mkDataDirs base) fs = (fs, .error e)) ∧
    (∀ fs src ts, ∃ e, SafeRenameNoOverwrite src P ts (mkDataDirs base) fs = (fs, .error e)) ∧
    (∀ fs dst ts, ∃ e, SafeCopyFileNoOverwrite P dst ts (mkDataDirs base) fs = (fs, .error e)) ∧
    (∀ fs src ts, ∃ e, SafeCopyFileNoOverwrite src P ts (mkDataDirs base) fs = (fs, .error e)) ∧
    (∀ fs t1 t2, ∃ e, MoveToTrash P t1 t2 (mkDataDirs base) fs = (fs, .error e)) := by
  obtain ⟨ea, hea⟩ := assertSafeTarget_protected_err base P hb hP
  obtain ⟨hcp, hcheck⟩ := protected_not_safe base P hb hP
  refine ⟨?_, ?_, ?_, ?_, ?_, ?_, ?_, ?_⟩
  · intro fs
    rcases hcheck with h | ⟨h1, h2⟩
    · exact ⟨"mkdir outside managed root", by simp [SafeMkdirAll, hcp, h]⟩
    · exact ⟨"refuse to mkdir a protected dir", by simp [SafeMkdirAll, hcp, h1, h2]⟩
  · intro fs ts
    exact ⟨ea, by simp [SafeCreateFile, hea]⟩
  · intro fs data tmp ts
    exact ⟨ea, by simp [SafeWriteFileAtomicUnique, hea]⟩
  · intro fs dst ts
    exact ⟨"invalid src: " ++ ea, by simp [SafeRenameNoOverwrite, hea]⟩
  · intro fs src ts
    cases hsrc : AssertSafeTarget src (mkDataDirs base) with
    | some e' => exact ⟨"invalid src: " ++ e', by simp [SafeRenameNoOverwrite, hsrc]⟩
    | none => exact ⟨"invalid dst: " ++ ea, by simp [SafeRenameNoOverwrite, hsrc, hea]⟩
  · intro fs dst ts
    exact ⟨"invalid src: " ++ ea, by simp [SafeCopyFileNoOverwrite, hea]⟩
  · intro fs src ts
    cases hsrc : AssertSafeTarget src (mkDataDirs base) with
    | some e' => exact ⟨"invalid src: " ++ e', by simp [SafeCopyFileNoOverwrite, hsrc]⟩
    | none => exact ⟨"invalid dst: " ++ ea, by simp [SafeCopyFileNoOverwrite, hsrc, hea]⟩
  · intro fs t1 t2
    exact ⟨ea, by simp [MoveToTrash, hea]⟩

/-- C2 witness: the protected VMS directory of a concrete layout is refused
by every operation. -/
theorem c2_protected_paths_refused_witness :
    (∀ fs, ∃ e, SafeMkdirAll (["data"] ++ ["openhvx"] ++ ["VMS"]) (mkDataDirs ["data"]) fs
      = (fs, .error e)) ∧
    (∀ fs ts, ∃ e, SafeCreateFile (["data"] ++ ["openhvx"] ++ ["VMS"]) ts (mkDataDirs ["data"]) fs
      = (fs, .error e)) ∧
    (∀ fs data tmp ts, ∃ e,
      SafeWriteFileAtomicUnique (["data"] ++ ["openhvx"] ++ ["VMS"]) data tmp ts
        (mkDataDirs ["data"]) fs = (fs, .error e)) ∧
    (∀ fs dst ts, ∃ e, SafeRenameNoOverwrite (["data"] ++ ["openhvx"] ++ ["VMS"]) dst ts
      (mkDataDirs ["data"]) fs = (fs, .error e)) ∧
    (∀ fs src ts, ∃ e, SafeRenameNoOverwrite src (["data"] ++ ["openhvx"] ++ ["VMS"]) ts
      (mkDataDirs ["data"]) fs = (fs, .error e)) ∧
    (∀ fs dst ts, ∃ e, SafeCopyFileNoOverwrite (["data"] ++ ["openhvx"] ++ ["VMS"]) dst ts
      (mkDataDirs ["data"]) fs = (fs, .error e)) ∧
    (∀ fs src ts, ∃ e, SafeCopyFileNoOverwrite src (["data"] ++ ["openhvx"] ++ ["VMS"]) ts
      (mkDataDirs ["data"]) fs = (fs, .error e)) ∧
    (∀ fs t1 t2, ∃ e, MoveToTrash (["data"] ++ ["openhvx"] ++ ["VMS"]) t1 t2
      (mkDataDirs ["data"]) fs = (fs, .error e)) :=
  c2_protected_paths_refused ["data"] (["data"] ++ ["openhvx"] ++ ["VMS"])
    (by decide) (by decide)


/-! ## Filesystem lemmas -/

theorem beq_path_false (p q : FPath) (h : ¬ p = q) : (p == q) = false := by
  rw [beq_eq_false_iff_ne]
  exact h

theorem lookup_setFileEntry_self (l : List (FPath × String)) (p : FPath) (c : String) :
    (setFileEntry l p c).lookup p = some c := by
  induction l with
  | nil => simp [setFileEntry, List.lookup]
  | cons kv rest ih =>
    by_cases h : kv.1 = p
    · simp [setFileEntry, h, List.lookup]
    · have hb : (p == kv.1) = false := beq_path_false _ _ (fun he => h he.symm)
      simp [setFileEntry, h, List.lookup, hb, ih]

theorem lookup_setFileEntry_ne (l : List (FPath × String)) (p q : FPath) (c : String)
    (h : q ≠ p) : (setFileEntry l p c).lookup q = l.lookup q := by
  have hqp : (q == p) = false := beq_path_false _ _ h
  induction l with
  | nil => simp [setFileEntry, List.lookup, hqp]
  | cons kv rest ih =>
    by_cases hk : kv.1 = p
    · subst hk
      simp [setFileEntry, List.lookup, hqp]
    · simp [setFileEntry, hk, List.lookup, ih]

theorem lookup_filter_self (l : List (FPath × String)) (p : FPath) :
    (l.filter (fun kv => kv.1 ≠ p)).lookup p = none := by
  induction l with
  | nil => rfl
  | cons kv rest ih =>
    by_cases hk : kv.1 = p
    · have hd : decide (kv.1 ≠ p) = false := by simp [hk]
      simp only [List.filter_cons, ne_eq] at *
      simp only [hd, Bool.false_eq_true, if_false]
      exact ih
    · have hd : decide (kv.1 ≠ p) = true := by simp [hk]
      have hb : (p == kv.1) = false := beq_path_false _ _ (fun he => hk he.symm)
      simp only [List.filter_cons, ne_eq] at *
      simp only [hd, if_true, List.lookup, hb]
      exact ih

theorem lookup_filter_ne (l : List (FPath × String)) (p q : FPath) (h : q ≠ p) :
    (l.filter (fun kv => kv.1 ≠ p)).lookup q = l.lookup q := by
  induction l with
  | nil => rfl
  | cons kv rest ih =>
    by_cases hk : kv.1 = p
    · have hd : decide (kv.1 ≠ p) = false := by simp [hk]
      have hb : (q == kv.1) = false := beq_path_false _ _ (fun he => h (he.trans hk))
      simp only [List.filter_cons, ne_eq] at *
      simp only [hd, Bool.false_eq_true, if_false, List.lookup, hb]
      exact ih
    · have hd : decide (kv.1 ≠ p) = true := by simp [hk]
      simp only [List.filter_cons, ne_eq] at *
      simp only [hd, if_true, List.lookup]
      rw [ih]

theorem lookupFile_insertFile_self (fs : FS) (p : FPath) (c : String) :
    lookupFile (insertFile fs p c) p = some c :=
  lookup_setFileEntry_self fs.files p c

theorem lookupFile_insertFile_ne (fs : FS) (p q : FPath) (c : String) (h : q ≠ p) :
    lookupFile (insertFile fs p c) q = lookupFile fs q :=
  lookup_setFileEntry_ne fs.files p q c h

theorem lookupFile_removeFile_self (fs : FS) (p : FPath) :
    lookupFile (removeFile fs p) p = none :=
  lookup_filter_self fs.files p

theorem lookupFile_removeFile_ne (fs : FS) (p q : FPath) (h : q ≠ p) :
    lookupFile (removeFile fs p) q = lookupFile fs q :=
  lookup_filter_ne fs.files p q h

theorem isFile_congr_files (fs fs' : FS) (h : fs'.files = fs.files) (p : FPath) :
    isFile fs' p = isFile fs p := by
  simp [isFile, lookupFile, h]

theorem mkdirAll_files (fs : FS) (p : FPath) : (mkdirAll fs p).1.files = fs.files := by
  unfold mkdirAll
  split <;> rfl

theorem foldl_dirs_mem_mono (l : List FPath) :
    ∀ (ds : List FPath) (q : FPath), q ∈ ds →
      q ∈ l.foldl (fun ds a => if a ∈ ds then ds else ds ++ [a]) ds := by
  induction l with
  | nil => intro ds q h; exact h
  | cons b r ih =>
    intro ds q h
    simp only [List.foldl_cons]
    by_cases hb : b ∈ ds
    · simp only [hb, if_true]; exact ih ds q h
    · simp only [hb, if_false]
      exact ih _ q (List.mem_append_left _ h)

theorem foldl_dirs_mem_self (l : List FPath) :
    ∀ (ds : List FPath) (a : FPath), a ∈ l →
      a ∈ l.foldl (fun ds a => if a ∈ ds then ds else ds ++ [a]) ds := by
  induction l with
  | nil => intro ds a h; cases h
  | cons b r ih =>
    intro ds a h
    simp only [List.foldl_cons]
    rcases List.mem_cons.mp h with h | h
    · subst h
      by_cases hb : a ∈ ds
      · simp only [hb, if_true]
        exact foldl_dirs_mem_mono r ds a hb
      · simp only [hb, if_false]
        exact foldl_dirs_mem_mono r _ a (List.mem_append_right _ (List.mem_singleton.mpr rfl))
    · by_cases hb : b ∈ ds <;> simp only [hb, if_true, if_false] <;> exact ih _ a h

theorem foldl_dirs_noop (l : List FPath) :
    ∀ (ds : List FPath), (∀ a ∈ l, a ∈ ds) →
      l.foldl (fun ds a => if a ∈ ds then ds else ds ++ [a]) ds = ds := by
  induction l with
  | nil => intro ds _; rfl
  | cons b r ih =>
    intro ds h
    have hb : b ∈ ds := h b (List.mem_cons_self b r)
    simp only [List.foldl_cons, hb, if_true]
    exact ih ds (fun a ha => h a (List.mem_cons_of_mem b ha))

theorem mkdirAll_dirs_mono (fs : FS) (p q : FPath) (h : q ∈ fs.dirs) :
    q ∈ (mkdirAll fs p).1.dirs := by
  unfold mkdirAll
  split
  · exact h
  · exact foldl_dirs_mem_mono _ fs.dirs q h

theorem mkdirAll_ok_dirs (fs : FS) (p : FPath) (h : (mkdirAll fs p).2 = none) :
    ∀ a ∈ ancestors p, a ∈ (mkdirAll fs p).1.dirs := by
  intro a ha
  unfold mkdirAll at *
  by_cases hany : ((ancestors p).any fun a => isFile fs a) = true
  · simp [hany] at h
  · simp only [Bool.not_eq_true] at hany
    simp only [hany, Bool.false_eq_true, if_false]
    exact foldl_dirs_mem_self _ fs.dirs a ha

theorem mkdirAll_ok_nofile (fs : FS) (p : FPath) (h : (mkdirAll fs p).2 = none) :
    ∀ a ∈ ancestors p, isFile fs a = false := by
  intro a ha
  unfold mkdirAll at h
  by_cases hany : ((ancestors p).any fun a => isFile fs a) = true
  · simp [hany] at h
  · simp only [Bool.not_eq_true, List.any_eq_false] at hany
    have := hany a ha
    simp only [Bool.not_eq_true] at this
    exact this

theorem mkdirAll_noop (fs : FS) (p : FPath)
    (hdirs : ∀ a ∈ ancestors p, a ∈ fs.dirs)
    (hnf : ∀ a ∈ ancestors p, isFile fs a = false) :
    mkdirAll fs p = (fs, none) := by
  unfold mkdirAll
  have hany : ((ancestors p).any fun a => isFile fs a) = false := by
    rw [List.any_eq_false]
    intro x hx
    simp [hnf x hx]
  simp only [hany, Bool.false_eq_true, if_false]
  rw [foldl_dirs_noop _ fs.dirs hdirs]

theorem existsPath_mono_mkdirAll (fs : FS) (p q : FPath)
    (h : existsPath fs q = true) : existsPath (mkdirAll fs p).1 q = true := by
  simp only [existsPath, Bool.or_eq_true, decide_eq_true_eq] at h ⊢
  rcases h with h | h
  · exact Or.inl (mkdirAll_dirs_mono fs p q h)
  · exact Or.inr (by rw [isFile_congr_files fs _ (mkdirAll_files fs p)]; exact h)

theorem existsPath_mono_insertFile (fs : FS) (p q : FPath) (c : String)
    (h : existsPath fs q = true) : existsPath (insertFile fs p c) q = true := by
  simp only [existsPath, Bool.or_eq_true, decide_eq_true_eq] at h ⊢
  rcases h with h | h
  · exact Or.inl h
  · right
    by_cases hq : q = p
    · subst hq; simp [isFile, lookupFile_insertFile_self]
    · simp only [isFile] at h ⊢
      rw [lookupFile_insertFile_ne fs p q c hq]
      exact h

theorem lookupFile_none_of_not_exists (fs : FS) (p : FPath)
    (h : existsPath fs p = false) : lookupFile fs p = none := by
  cases hl : lookupFile fs p with
  | none => rfl
  | some c =>
    exfalso
    have : existsPath fs p = true := by
      simp [existsPath, isFile, hl]
    rw [this] at h
    cases h

theorem createTemp_ok_spec (fs fs2 : FS) (parent : FPath) (name : String) (tp : FPath)
    (h : createTemp fs parent name = (fs2, .ok tp)) :
    tp = parent ++ [name] ∧ existsPath fs tp = false ∧ fs2 = insertFile fs tp "" := by
  unfold createTemp at h
  by_cases h1 : decide (parent ∈ fs.dirs) = false
  · rw [if_pos h1] at h
    cases h
  · rw [if_neg h1] at h
    by_cases h2 : existsPath fs (parent ++ [name]) = true
    · rw [if_pos h2] at h
      cases h
    · simp only [Bool.not_eq_true] at h2
      rw [if_neg (by rw [h2]; exact Bool.false_ne_true)] at h
      obtain ⟨hfs, htp⟩ := Prod.mk.injEq .. ▸ h
      injection htp with htp
      exact ⟨htp.symm, htp ▸ h2, by rw [← hfs, htp]⟩

theorem probeSeq_some_free (ex : FPath → Bool) (p : FPath) :
    ∀ (fuel i : Nat) (c : FPath), probeSeq ex p i fuel = some c → ex c = false := by
  intro fuel
  induction fuel with
  | zero => intro i c h; cases h
  | succ f ih =>
    intro i c h
    by_cases hf : ex (seqCandidate p i) = false
    · simp only [probeSeq, hf, if_true, Option.some.injEq] at h
      rw [← h]; exact hf
    · simp only [probeSeq, hf, if_false] at h
      exact ih (i + 1) c h

theorem uniquePath_free (ex : FPath → Bool) (ts : String) (p q : FPath)
    (h : uniquePath ex ts p = .ok q) : ex q = false := by
  unfold uniquePath at h
  by_cases hp : ex p = false
  · rw [if_pos hp] at h
    injection h with h
    rw [← h]; exact hp
  · rw [if_neg hp] at h
    cases hprobe : probeSeq ex p 1 9999 with
    | some c =>
      rw [hprobe] at h
      injection h with h
      rw [← h]
      exact probeSeq_some_free ex p 9999 1 c hprobe
    | none =>
      rw [hprobe] at h
      by_cases hts : ex (tsCandidate p ts) = false
      · rw [if_pos hts] at h
        injection h with h
        rw [← h]; exact hts
      · rw [if_neg hts] at h
        cases h

theorem createTemp_err_spec (fs fs2 : FS) (parent : FPath) (name e : String)
    (h : createTemp fs parent name = (fs2, .error e)) : fs2 = fs := by
  unfold createTemp at h
  split at h
  · obtain ⟨h1, _⟩ := Prod.mk.injEq .. ▸ h
    exact h1.symm
  · split at h
    · obtain ⟨h1, _⟩ := Prod.mk.injEq .. ▸ h
      exact h1.symm
    · simp at h

theorem renamePath_err_spec (fs fs2 : FS) (src dst : FPath) (e : String)
    (h : renamePath fs src dst = (fs2, some e)) : fs2 = fs := by
  unfold renamePath at h
  split at h
  · obtain ⟨h1, _⟩ := Prod.mk.injEq .. ▸ h
    exact h1.symm
  · split at h
    · obtain ⟨h1, _⟩ := Prod.mk.injEq .. ▸ h
      exact h1.symm
    · split at h <;> simp at h

/-- The success branch of SafeWriteFileAtomicUnique: the chosen path was
free beforehand, now holds exactly the written bytes, and every other file
is untouched. -/
theorem swfau_ok_spec (dest : FPath) (data tmpName ts : String) (d : DataDirs)
    (fs fs' : FS) (Q : FPath)
    (h : SafeWriteFileAtomicUnique dest data tmpName ts d fs = (fs', .ok Q)) :
    existsPath fs Q = false ∧ lookupFile fs' Q = some data ∧
      ∀ p, p ≠ Q → lookupFile fs' p = lookupFile fs p := by
  unfold SafeWriteFileAtomicUnique at h
  cases ha : AssertSafeTarget dest d with
  | some e0 => simp [ha] at h
  | none =>
    simp only [ha] at h
    rcases hmk : mkdirAll fs ((cleanPath dest).dropLast) with ⟨fs1, r1⟩
    have hfiles1 : fs1.files = fs.files := by
      rw [← mkdirAll_files fs ((cleanPath dest).dropLast), hmk]
    cases r1 with
    | some e1 => simp [hmk] at h
    | none =>
      simp only [hmk] at h
      rcases hct : createTemp fs1 ((cleanPath dest).dropLast) tmpName with ⟨fs2, ct⟩
      cases ct with
      | error e2 => simp [hct] at h
      | ok tp =>
        simp only [hct] at h
        obtain ⟨htp, hfresh, hfs2⟩ := createTemp_ok_spec fs1 fs2 _ tmpName tp hct
        cases hup : uniquePath (existsPath (insertFile fs2 tp data)) ts (cleanPath dest) with
        | error e3 => simp [hup] at h
        | ok fp =>
          simp only [hup] at h
          have hfree3 : existsPath (insertFile fs2 tp data) fp = false :=
            uniquePath_free _ _ _ _ hup
          have htpfile : isFile (insertFile fs2 tp data) tp = true := by
            simp [isFile, lookupFile_insertFile_self]
          have htpex : existsPath (insertFile fs2 tp data) tp = true := by
            simp [existsPath, htpfile]
          have hne : fp ≠ tp := by
            intro hcontra
            rw [hcontra, htpex] at hfree3
            cases hfree3
          have hren : renamePath (insertFile fs2 tp data) tp fp =
              ({ dirs := (insertFile fs2 tp data).dirs
                 files := setFileEntry
                   ((insertFile fs2 tp data).files.filter (fun kv => kv.1 ≠ tp)) fp data },
                none) := by
            unfold renamePath
            rw [if_neg (by rw [htpex]; simp),
              if_neg (by rw [hfree3]; simp),
              if_pos htpfile]
            rw [show lookupFile (insertFile fs2 tp data) tp = some data from
              lookupFile_insertFile_self fs2 tp data]
            rfl
          rw [hren] at h
          obtain ⟨hfs', hQ⟩ := Prod.mk.injEq .. ▸ h
          injection hQ with hQ
          subst hQ
          have hmono : ∀ q, existsPath fs q = true →
              existsPath (insertFile fs2 tp data) q = true := by
            intro q hq
            apply existsPath_mono_insertFile
            rw [hfs2]
            apply existsPath_mono_insertFile
            have := existsPath_mono_mkdirAll fs ((cleanPath dest).dropLast) q hq
            rw [hmk] at this
            exact this
          have hQfs : existsPath fs fp = false := by
            cases hex : existsPath fs fp
            · rfl
            · rw [hmono fp hex] at hfree3; cases hfree3
          have htpfs : lookupFile fs tp = none := by
            apply lookupFile_none_of_not_exists
            cases hex : existsPath fs tp
            · rfl
            · exfalso
              have := existsPath_mono_mkdirAll fs ((cleanPath dest).dropLast) tp hex
              rw [hmk, hfresh] at this
              cases this
          refine ⟨hQfs, ?_, ?_⟩
          · rw [← hfs']
            rw [show lookupFile (removeFile _ tp) fp = _ from
              lookupFile_removeFile_ne _ tp fp hne]
            exact lookup_setFileEntry_self _ fp data
          · intro p hp
            rw [← hfs']
            by_cases hpt : p = tp
            · subst hpt
              rw [lookupFile_removeFile_self, htpfs]
            · rw [lookupFile_removeFile_ne _ tp p hpt]
              have step1 : lookupFile
                  ({ dirs := (insertFile fs2 tp data).dirs
                     files := setFileEntry
                       ((insertFile fs2 tp data).files.filter (fun kv => kv.1 ≠ tp)) fp data } : FS) p
                  = ((insertFile fs2 tp data).files.filter (fun kv => kv.1 ≠ tp)).lookup p :=
                lookup_setFileEntry_ne _ fp p data hp
              rw [step1, lookup_filter_ne _ tp p hpt]
              have step2 : (insertFile fs2 tp data).files.lookup p = lookupFile fs2 p :=
                lookupFile_insertFile_ne fs2 tp p data hpt
              rw [step2, hfs2, lookupFile_insertFile_ne fs1 tp p "" hpt]
              simp [lookupFile, hfiles1]

/-- Every failing branch of SafeWriteFileAtomicUnique leaves the files of
the state unchanged: in particular the temp file is removed and no
destination file was created. -/
theorem swfau_err_spec (dest : FPath) (data tmpName ts : String) (d : DataDirs)
    (fs fs' : FS) (e : String)
    (h : SafeWriteFileAtomicUnique dest data tmpName ts d fs = (fs', .error e)) :
    ∀ p, lookupFile fs' p = lookupFile fs p := by
  unfold SafeWriteFileAtomicUnique at h
  cases ha : AssertSafeTarget dest d with
  | some e0 =>
    simp only [ha] at h
    obtain ⟨h1, _⟩ := Prod.mk.injEq .. ▸ h
    rw [← h1]
    intro p; rfl
  | none =>
    simp only [ha] at h
    rcases hmk : mkdirAll fs ((cleanPath dest).dropLast) with ⟨fs1, r1⟩
    have hfiles1 : fs1.files = fs.files := by
      rw [← mkdirAll_files fs ((cleanPath dest).dropLast), hmk]
    cases r1 with
    | some e1 =>
      simp only [hmk] at h
      obtain ⟨h1, _⟩ := Prod.mk.injEq .. ▸ h
      rw [← h1]
      intro p
      simp [lookupFile, hfiles1]
    | none =>
      simp only [hmk] at h
      rcases hct : createTemp fs1 ((cleanPath dest).dropLast) tmpName with ⟨fs2, ct⟩
      cases ct with
      | error e2 =>
        simp only [hct] at h
        obtain ⟨h1, _⟩ := Prod.mk.injEq .. ▸ h
        have hfs2 : fs2 = fs1 := createTemp_err_spec fs1 fs2 _ tmpName e2 hct
        rw [← h1, hfs2]
        intro p
        simp [lookupFile, hfiles1]
      | ok tp =>
        simp only [hct] at h
        obtain ⟨htp, hfresh, hfs2⟩ := createTemp_ok_spec fs1 fs2 _ tmpName tp hct
        have htpfs : lookupFile fs tp = none := by
          apply lookupFile_none_of_not_exists
          cases hex : existsPath fs tp
          · rfl
          · exfalso
            have := existsPath_mono_mkdirAll fs ((cleanPath dest).dropLast) tp hex
            rw [hmk, hfresh] at this
            cases this
        have hclean : ∀ p, lookupFile (removeFile (insertFile fs2 tp data) tp) p
            = lookupFile fs p := by
          intro p
          by_cases hpt : p = tp
          · subst hpt
            rw [lookupFile_removeFile_self, htpfs]
          · rw [lookupFile_removeFile_ne _ tp p hpt]
            have step : lookupFile (insertFile fs2 tp data) p = lookupFile fs2 p :=
              lookupFile_insertFile_ne fs2 tp p data hpt
            rw [step, hfs2, lookupFile_insertFile_ne fs1 tp p "" hpt]
            simp [lookupFile, hfiles1]
        cases hup : uniquePath (existsPath (insertFile fs2 tp data)) ts (cleanPath dest) with
        | error e3 =>
          simp only [hup] at h
          obtain ⟨h1, _⟩ := Prod.mk.injEq .. ▸ h
          rw [← h1]
          exact hclean
        | ok fp =>
          simp only [hup] at h
          rcases hren : renamePath (insertFile fs2 tp data) tp fp with ⟨fs4, rr⟩
          cases rr with
          | some e4 =>
            simp only [hren] at h
            obtain ⟨h1, _⟩ := Prod.mk.injEq .. ▸ h
            have hfs4 : fs4 = insertFile fs2 tp data :=
              renamePath_err_spec _ fs4 tp fp e4 hren
            rw [← h1, hfs4]
            exact hclean
          | none =>
            simp only [hren] at h
            simp at h

/-- C5: a successful SafeWriteFileAtomicUnique returns a path that did not
exist before the call, afterwards holds exactly the written data, and leaves
every other file untouched; every error return leaves the files unchanged
(the same-directory temp file is removed on every failure path and no
destination file is created). -/
theorem c5_safe_write_file_atomic_unique (dest : FPath) (data tmpName ts : String)
    (d : DataDirs) (fs : FS) :
    (∀ fs' Q, SafeWriteFileAtomicUnique dest data tmpName ts d fs = (fs', .ok Q) →
      existsPath fs Q = false ∧ lookupFile fs' Q = some data ∧
        ∀ p, p ≠ Q → lookupFile fs' p = lookupFile fs p) ∧
    (∀ fs' e, SafeWriteFileAtomicUnique dest data tmpName ts d fs = (fs', .error e) →
      ∀ p, lookupFile fs' p = lookupFile fs p) :=
  ⟨fun fs' Q h => swfau_ok_spec dest data tmpName ts d fs fs' Q h,
    fun fs' e h => swfau_err_spec dest data tmpName ts d fs fs' e h⟩

/-- C5 witness: a concrete successful atomic write into an empty state. -/
theorem c5_safe_write_file_atomic_unique_witness :
    existsPath ⟨[], []⟩ ["data", "openhvx", "VMS", "a.txt"] = false ∧
    lookupFile
        ⟨[["data"], ["data", "openhvx"], ["data", "openhvx", "VMS"]],
          [(["data", "openhvx", "VMS", "a.txt"], "hello")]⟩
        ["data", "openhvx", "VMS", "a.txt"] = some "hello" ∧
    ∀ p, p ≠ ["data", "openhvx", "VMS", "a.txt"] →
      lookupFile
          ⟨[["data"], ["data", "openhvx"], ["data", "openhvx", "VMS"]],
            [(["data", "openhvx", "VMS", "a.txt"], "hello")]⟩ p
        = lookupFile ⟨[], []⟩ p :=
  (c5_safe_write_file_atomic_unique ["data", "openhvx", "VMS", "a.txt"] "hello"
      ".openhvx-tmp1" "20260203-040506.000" (mkDataDirs ["data"]) ⟨[], []⟩).1
    ⟨[["data"], ["data", "openhvx"], ["data", "openhvx", "VMS"]],
      [(["data", "openhvx", "VMS", "a.txt"], "hello")]⟩
    ["data", "openhvx", "VMS", "a.txt"] (by rfl)

theorem cleanPathAux_append :
    ∀ (xs ys acc : FPath), cleanPathAux acc (xs ++ ys) = cleanPathAux (cleanPathAux acc xs) ys := by
  intro xs
  induction xs with
  | nil => intro ys acc; rfl
  | cons s r ih =>
    intro ys acc
    by_cases h1 : s = "" ∨ s = "."
    · simp only [List.cons_append, cleanPathAux, h1, if_true]
      exact ih ys acc
    · by_cases h2 : s = ".."
      · simp only [List.cons_append, cleanPathAux, h1, if_false, h2, if_true]
        exact ih ys acc.dropLast
      · simp only [List.cons_append, cleanPathAux, h1, if_false, h2]
        exact ih ys (acc ++ [s])

theorem joinP_singleton_plain (a : FPath) (x : String) (h1 : x ≠ "") (h2 : x ≠ ".")
    (h3 : x ≠ "..") : joinP a [x] = cleanPath a ++ [x] := by
  unfold joinP
  show cleanPathAux [] (a ++ [x]) = cleanPath a ++ [x]
  rw [cleanPathAux_append a [x] []]
  show cleanPathAux (cleanPath a) [x] = cleanPath a ++ [x]
  simp [cleanPathAux, h1, h2, h3]

theorem protected_nonempty (base p : FPath) (hp : p ∈ protectedList (mkDataDirs base)) :
    p ≠ [] := by
  simp only [protectedList, mkDataDirs, List.mem_cons, List.not_mem_nil, or_false] at hp
  rcases hp with h | h | h | h | h | h | h | h <;> subst h <;>
    rw [joinP_singleton_plain _ _ (by decide) (by decide) (by decide)] <;> simp

theorem self_mem_ancestors (p : FPath) (h : p ≠ []) : p ∈ ancestors p := by
  have hlen : 1 ≤ p.length := by
    cases p with
    | nil => exact absurd rfl h
    | cons a l => simp
  apply List.mem_map.mpr
  refine ⟨p.length - 1, List.mem_range.mpr (by omega), ?_⟩
  have : p.length - 1 + 1 = p.length := by omega
  rw [this, List.take_length]

theorem mkdirAllSeq_files (l : List FPath) :
    ∀ fs, (mkdirAllSeq fs l).1.files = fs.files := by
  induction l with
  | nil => intro fs; rfl
  | cons p rest ih =>
    intro fs
    rcases hmk : mkdirAll fs p with ⟨fs1, r⟩
    have hf : fs1.files = fs.files := by rw [← mkdirAll_files fs p, hmk]
    cases r with
    | some e => simp only [mkdirAllSeq, hmk]; exact hf
    | none =>
      simp only [mkdirAllSeq, hmk]
      rw [ih fs1, hf]

theorem mkdirAllSeq_dirs_mono (l : List FPath) :
    ∀ fs q, q ∈ fs.dirs → q ∈ (mkdirAllSeq fs l).1.dirs := by
  induction l with
  | nil => intro fs q h; exact h
  | cons p rest ih =>
    intro fs q h
    rcases hmk : mkdirAll fs p with ⟨fs1, r⟩
    have h1 : q ∈ fs1.dirs := by
      have := mkdirAll_dirs_mono fs p q h
      rw [hmk] at this
      exact this
    cases r with
    | some e => simp only [mkdirAllSeq, hmk]; exact h1
    | none => simp only [mkdirAllSeq, hmk]; exact ih fs1 q h1

theorem mkdirAllSeq_ok_facts (l : List FPath) :
    ∀ fs, (mkdirAllSeq fs l).2 = none →
      ∀ p ∈ l, ∀ a ∈ ancestors p,
        a ∈ (mkdirAllSeq fs l).1.dirs ∧ isFile fs a = false := by
  induction l with
  | nil => intro fs _ p hp; cases hp
  | cons p0 rest ih =>
    intro fs h p hp
    rcases hmk : mkdirAll fs p0 with ⟨fs1, r⟩
    cases r with
    | some e => simp only [mkdirAllSeq, hmk] at h; cases h
    | none =>
      have hnone : (mkdirAll fs p0).2 = none := by rw [hmk]
      have hfiles1 : fs1.files = fs.files := by rw [← mkdirAll_files fs p0, hmk]
      simp only [mkdirAllSeq, hmk] at h ⊢
      rcases List.mem_cons.mp hp with hp0 | hprest
      · subst hp0
        intro a ha
        constructor
        · have h1 : a ∈ fs1.dirs := by
            have := mkdirAll_ok_dirs fs p hnone a ha
            rw [hmk] at this
            exact this
          exact mkdirAllSeq_dirs_mono rest fs1 a h1
        · exact mkdirAll_ok_nofile fs p hnone a ha
      · intro a ha
        have hrec := ih fs1 h p hprest a ha
        refine ⟨hrec.1, ?_⟩
        rw [← isFile_congr_files fs fs1 hfiles1 a]
        exact hrec.2

theorem mkdirAllSeq_noop (l : List FPath) :
    ∀ fs, (∀ p ∈ l, ∀ a ∈ ancestors p, a ∈ fs.dirs ∧ isFile fs a = false) →
      mkdirAllSeq fs l = (fs, none) := by
  induction l with
  | nil => intro fs _; rfl
  | cons p0 rest ih =>
    intro fs h
    have hmk : mkdirAll fs p0 = (fs, none) :=
      mkdirAll_noop fs p0
        (fun a ha => (h p0 (List.mem_cons_self p0 rest) a ha).1)
        (fun a ha => (h p0 (List.mem_cons_self p0 rest) a ha).2)
    simp only [mkdirAllSeq, hmk]
    exact ih fs (fun p hp a ha => h p (List.mem_cons_of_mem p0 hp) a ha)

theorem writeFile_dirs (fs : FS) (p : FPath) (c : String) :
    (writeFile fs p c).1.dirs = fs.dirs := by
  unfold writeFile
  split
  · rfl
  · split <;> rfl

theorem existsPath_mono_writeFile (fs : FS) (p q : FPath) (c : String)
    (h : existsPath fs q = true) : existsPath (writeFile fs p c).1 q = true := by
  unfold writeFile
  split
  · exact h
  · split
    · exact h
    · exact existsPath_mono_insertFile fs p q c h

theorem writeFile_isFile_on_dirs (fs : FS) (p : FPath) (c : String)
    (hp : existsPath fs p = false) (a : FPath) (ha : a ∈ fs.dirs) :
    isFile (writeFile fs p c).1 a = isFile fs a := by
  have hap : a ≠ p := by
    intro hcontra
    subst hcontra
    have : existsPath fs a = true := by simp [existsPath, ha]
    rw [this] at hp
    cases hp
  unfold writeFile
  split
  · rfl
  · split
    · rfl
    · simp only [isFile]
      rw [lookupFile_insertFile_ne fs p a c hap]

theorem guardsSeq_dirs (l : List FPath) :
    ∀ fs, (writeGuardsSeq fs l).dirs = fs.dirs := by
  induction l with
  | nil => intro fs; rfl
  | cons dir rest ih =>
    intro fs
    by_cases hex : existsPath fs (dir ++ [guardFileName]) = true
    · simp only [writeGuardsSeq, hex, if_true]
      exact ih fs
    · simp only [writeGuardsSeq, hex, Bool.false_eq_true, if_false]
      rw [ih _, writeFile_dirs]

theorem guardsSeq_exists_mono (l : List FPath) :
    ∀ fs q, existsPath fs q = true → existsPath (writeGuardsSeq fs l) q = true := by
  induction l with
  | nil => intro fs q h; exact h
  | cons dir rest ih =>
    intro fs q h
    by_cases hex : existsPath fs (dir ++ [guardFileName]) = true
    · simp only [writeGuardsSeq, hex, if_true]
      exact ih fs q h
    · simp only [writeGuardsSeq, hex, Bool.false_eq_true, if_false]
      exact ih _ q (existsPath_mono_writeFile fs _ q guardContent h)

theorem guardsSeq_isFile_on_dirs (l : List FPath) :
    ∀ fs a, a ∈ fs.dirs → isFile (writeGuardsSeq fs l) a = isFile fs a := by
  induction l with
  | nil => intro fs a _; rfl
  | cons dir rest ih =>
    intro fs a ha
    by_cases hex : existsPath fs (dir ++ [guardFileName]) = true
    · simp only [writeGuardsSeq, hex, if_true]
      exact ih fs a ha
    · simp only [writeGuardsSeq, hex, Bool.false_eq_true, if_false]
      have hex' : existsPath fs (dir ++ [guardFileName]) = false := by
        cases hc : existsPath fs (dir ++ [guardFileName])
        · rfl
        · exact absurd hc hex
      have ha1 : a ∈ (writeFile fs (dir ++ [guardFileName]) guardContent).1.dirs := by
        rw [writeFile_dirs]; exact ha
      rw [ih _ a ha1]
      exact writeFile_isFile_on_dirs fs _ guardContent hex' a ha

theorem guardsSeq_guard_exists (l : List FPath) :
    ∀ fs, (∀ dir ∈ l, dir ∈ fs.dirs) →
      ∀ dir ∈ l, existsPath (writeGuardsSeq fs l) (dir ++ [guardFileName]) = true := by
  induction l with
  | nil => intro fs _ dir hdir; cases hdir
  | cons dir0 rest ih =>
    intro fs hdirs dir hdir
    by_cases hex : existsPath fs (dir0 ++ [guardFileName]) = true
    · simp only [writeGuardsSeq, hex, if_true]
      rcases List.mem_cons.mp hdir with h | h
      · subst h
        exact guardsSeq_exists_mono rest fs _ hex
      · exact ih fs (fun q hq => hdirs q (List.mem_cons_of_mem dir0 hq)) dir h
    · simp only [writeGuardsSeq, hex, Bool.false_eq_true, if_false]
      have hpar : (dir0 ++ [guardFileName]).dropLast = dir0 := by simp
      have hnotdir : decide ((dir0 ++ [guardFileName]) ∈ fs.dirs) = false := by
        rw [decide_eq_false_iff_not]
        intro hc
        apply hex
        simp [existsPath, hc]
      have hwf : writeFile fs (dir0 ++ [guardFileName]) guardContent =
          (insertFile fs (dir0 ++ [guardFileName]) guardContent, none) := by
        unfold writeFile
        rw [if_neg (by
          rw [hpar]
          have : decide (dir0 ∈ fs.dirs) = true :=
            decide_eq_true (hdirs dir0 (List.mem_cons_self dir0 rest))
          rw [this]
          simp), if_neg (by rw [hnotdir]; simp)]
      rw [hwf]
      rcases List.mem_cons.mp hdir with h | h
      · subst h
        apply guardsSeq_exists_mono
        simp [existsPath, isFile, lookupFile_insertFile_self]
      · apply ih
        · intro q hq
          show q ∈ (insertFile fs (dir0 ++ [guardFileName]) guardContent).dirs
          exact hdirs q (List.mem_cons_of_mem dir0 hq)
        · exact h

theorem guardsSeq_noop (l : List FPath) :
    ∀ fs, (∀ dir ∈ l, existsPath fs (dir ++ [guardFileName]) = true) →
      writeGuardsSeq fs l = fs := by
  induction l with
  | nil => intro fs _; rfl
  | cons dir0 rest ih =>
    intro fs h
    have hex := h dir0 (List.mem_cons_self dir0 rest)
    simp only [writeGuardsSeq, hex, if_true]
    exact ih fs (fun dir hdir => h dir (List.mem_cons_of_mem dir0 hdir))

/-- C8: EnsureDataDirs is idempotent; after a successful first call the
second call on the same base returns the same state unchanged (no directory
is created, no guard file is rewritten) and the same layout. -/
theorem c8_ensure_data_dirs_idempotent (basePath : FPath) (fs fs1 : FS) (d : DataDirs)
    (h : EnsureDataDirs basePath fs = (fs1, .ok d)) :
    EnsureDataDirs basePath fs1 = (fs1, .ok d) := by
  unfold EnsureDataDirs at h ⊢
  by_cases hbp : basePath.isEmpty = true
  · rw [if_pos hbp] at h
    simp at h
  · rw [if_neg hbp] at h ⊢
    rcases hseq : mkdirAllSeq fs (protectedList (mkDataDirs basePath)) with ⟨fsm, r⟩
    cases r with
    | some e => simp [hseq] at h
    | none =>
      simp only [hseq] at h
      obtain ⟨hfs1, hd⟩ := Prod.mk.injEq .. ▸ h
      injection hd with hd
      subst hd
      have hseq2 : (mkdirAllSeq fs (protectedList (mkDataDirs basePath))).2 = none := by
        rw [hseq]
      have hfacts := mkdirAllSeq_ok_facts _ fs hseq2
      have hfilesm : fsm.files = fs.files := by
        rw [← mkdirAllSeq_files _ fs, hseq]
      have hdirs1 : fs1.dirs = fsm.dirs := by
        rw [← hfs1]
        exact guardsSeq_dirs _ fsm
      have hdirin : ∀ p ∈ protectedList (mkDataDirs basePath), p ∈ fsm.dirs := by
        intro p hp
        have hself := self_mem_ancestors p (protected_nonempty basePath p hp)
        have := (hfacts p hp p hself).1
        rw [hseq] at this
        exact this
      have hnoop1 : mkdirAllSeq fs1 (protectedList (mkDataDirs basePath)) = (fs1, none) := by
        apply mkdirAllSeq_noop
        intro p hp a ha
        have hf := hfacts p hp a ha
        have hadirs : a ∈ fsm.dirs := by
          have := hf.1
          rw [hseq] at this
          exact this
        constructor
        · rw [hdirs1]; exact hadirs
        · have h1 : isFile fs1 a = isFile fsm a := by
            rw [← hfs1]
            exact guardsSeq_isFile_on_dirs _ fsm a hadirs
          have h2 : isFile fsm a = isFile fs a := isFile_congr_files fs fsm hfilesm a
          rw [h1, h2]
          exact hf.2
      have hguards : ∀ dir ∈ protectedList (mkDataDirs basePath),
          existsPath fs1 (dir ++ [guardFileName]) = true := by
        intro dir hdir
        rw [← hfs1]
        exact guardsSeq_guard_exists _ fsm hdirin dir hdir
      have hnoop2 : writeGuardsSeq fs1 (protectedList (mkDataDirs basePath)) = fs1 :=
        guardsSeq_noop _ fs1 hguards
      simp only [hnoop1, hnoop2]

/-- C8 witness: a concrete first ensure on an empty state, replayed. -/
theorem c8_ensure_data_dirs_idempotent_witness :
    EnsureDataDirs ["data"]
        (EnsureDataDirs ["data"] ⟨[], []⟩).1
      = ((EnsureDataDirs ["data"] ⟨[], []⟩).1, .ok (mkDataDirs ["data"])) :=
  c8_ensure_data_dirs_idempotent ["data"] ⟨[], []⟩
    (EnsureDataDirs ["data"] ⟨[], []⟩).1 (mkDataDirs ["data"]) (by rfl)
